import Mathlib

/-!
Verification of the sequence-generator module (`work_with_files.py`).

The embedding models the Python source shallowly:
- Python exceptions become an explicit `Err` sum type; functions that can
  raise return `Except Err _`.
- JSON values (and, more generally, the dynamically-typed Python values
  that flow between the serializers and the generators) are the inductive
  `JVal`; XML element trees are `XElem`.
- The pair of on-disk files is the state `FS`; the module's entry points
  are state-passing functions returning the post-state together with an
  optional raised error (side effects performed before a raise persist,
  as in Python).
- Timestamps are opaque strings supplied by the caller (the `now`
  argument models `datetime.today().strftime(TIME_FORMAT)`; a file's
  creation time is stored, already formatted, in the file model).
- Python `//` and `%` on integers are `Int.fdiv` / `Int.fmod`
  (floor division, remainder with the divisor's sign), with an explicit
  zero-divisor check producing the `ZeroDivisionError` case.
-/

/-- Kinds of exception the Python module can raise. -/
inductive Err where
  | invalidType
  | invalidSeqLength (limit : Int)
  | invalidValue
  | fibonacci
  | attrError
  | keyError
  | typeError
  | valueError
  | zeroDiv
  deriving DecidableEq, Repr

/-- Model of a decoded JSON document / dynamically-typed Python value.
Objects are association lists in insertion order (Python dicts preserve
insertion order and have unique keys). -/
inductive JVal where
  | jNull
  | jBool (b : Bool)
  | jInt (i : Int)
  | jStr (s : String)
  | jArr (xs : List JVal)
  | jObj (kvs : List (String × JVal))

/-- Model of an `xml.etree.ElementTree` element: tag, attributes, text,
children. -/
inductive XElem where
  | mk (tag : String) (attrs : List (String × String))
       (text : Option String) (children : List XElem)

def XElem.tag : XElem → String
  | .mk t _ _ _ => t

def XElem.attrs : XElem → List (String × String)
  | .mk _ a _ _ => a

def XElem.text : XElem → Option String
  | .mk _ _ s _ => s

def XElem.children : XElem → List XElem
  | .mk _ _ _ c => c

/-- Python truthiness of a decoded JSON value (`bool(x)`). -/
def JVal.truthy : JVal → Bool
  | .jNull => false
  | .jBool b => b
  | .jInt i => i != 0
  | .jStr s => s ≠ ""
  | .jArr xs => !xs.isEmpty
  | .jObj kvs => !kvs.isEmpty

/-- Python truthiness of `element.text` (a string or `None`). -/
def truthyTxt : Option String → Bool
  | none => false
  | some s => s ≠ ""

/-- Python truthiness of an `Option XElem` as used in `_validate_data`:
`None` is falsy, and an `ElementTree` element is truthy iff it has
children. -/
def truthyEl : Option XElem → Bool
  | none => false
  | some e => !e.children.isEmpty

/-- Model of `dict.get(k)` (`None`, i.e. `none`, when the key is absent);
raises `AttributeError` when the receiver is not a dict. -/
def jGetOpt : JVal → String → Except Err (Option JVal)
  | .jObj kvs, k => .ok ((kvs.find? (fun kv => kv.1 == k)).map (·.2))
  | _, _ => .error .attrError

/-- Model of `d[k]` subscription: `KeyError` when absent, `TypeError`
when the receiver is not a dict. -/
def jIndex : JVal → String → Except Err JVal
  | .jObj kvs, k =>
      match kvs.find? (fun kv => kv.1 == k) with
      | some kv => .ok kv.2
      | none => .error .keyError
  | _, _ => .error .typeError

/-- Model of `k in d.keys()`; `AttributeError` when not a dict. -/
def jHasKey : JVal → String → Except Err Bool
  | .jObj kvs, k => .ok (kvs.any (fun kv => kv.1 == k))
  | _, _ => .error .attrError

/-! ### Decimal rendering of integers (`str(i)`) and parsing (`int(s)`) -/

/-- Decimal digit characters of a natural number, most significant first.
Fuel-based so the definition reduces in the kernel; `natDigits` supplies
sufficient fuel. -/
def natDigitsAux : Nat → Nat → List Char
  | 0, _ => []
  | fuel + 1, n =>
      if n < 10 then [Nat.digitChar n]
      else natDigitsAux fuel (n / 10) ++ [Nat.digitChar (n % 10)]

def natStr (n : Nat) : String := String.mk (natDigitsAux (n + 1) n)

/-- Model of Python `str(i)` on an int. -/
def intStr (i : Int) : String :=
  if i < 0 then "-" ++ natStr i.natAbs else natStr i.toNat

def digitVal? (c : Char) : Option Nat :=
  if '0' ≤ c ∧ c ≤ '9' then some (c.toNat - '0'.toNat) else none

def parseNatChars (cs : List Char) : Option Nat :=
  if cs.isEmpty then none
  else cs.foldl (fun acc c => acc.bind fun a => (digitVal? c).map fun d => a * 10 + d)
    (some 0)

/-- Model of Python `int(s)` on the strings this module produces
(optional sign followed by decimal digits). -/
def parseIntStr (s : String) : Option Int :=
  match s.data with
  | [] => none
  | c :: rest =>
      if c = '-' then (parseNatChars rest).map (fun n => -(Int.ofNat n))
      else if c = '+' then (parseNatChars rest).map Int.ofNat
      else (parseNatChars (c :: rest)).map Int.ofNat

theorem parseIntStr_eq (s : String) (c : Char) (rest : List Char)
    (h : s.data = c :: rest) :
    parseIntStr s =
      if c = '-' then (parseNatChars rest).map (fun n => -(Int.ofNat n))
      else if c = '+' then (parseNatChars rest).map Int.ofNat
      else (parseNatChars (c :: rest)).map Int.ofNat := by
  unfold parseIntStr
  rw [h]

theorem digitVal?_digitChar {d : Nat} (h : d < 10) :
    digitVal? (Nat.digitChar d) = some d := by
  interval_cases d <;> decide

theorem digitsAux_all_digits (fuel n : Nat) :
    ∀ c ∈ natDigitsAux fuel n, (digitVal? c).isSome := by
  induction fuel generalizing n with
  | zero => intro c hc; simp [natDigitsAux] at hc
  | succ f ih =>
    intro c hc
    by_cases h : n < 10
    · simp [natDigitsAux, h] at hc
      subst hc
      simp [digitVal?_digitChar h]
    · simp [natDigitsAux, h] at hc
      rcases hc with hc | hc
      · exact ih _ c hc
      · subst hc
        simp [digitVal?_digitChar (Nat.mod_lt _ (by norm_num))]

theorem natDigitsAux_ne_nil (fuel n : Nat) (h : 0 < fuel) :
    natDigitsAux fuel n ≠ [] := by
  cases fuel with
  | zero => omega
  | succ f =>
    by_cases h10 : n < 10 <;> simp [natDigitsAux, h10]

theorem foldl_digits_append (cs : List Char) (c : Char) (acc : Option Nat) :
    (cs ++ [c]).foldl (fun acc c => acc.bind fun a => (digitVal? c).map fun d => a * 10 + d) acc
      = ((cs.foldl (fun acc c => acc.bind fun a => (digitVal? c).map fun d => a * 10 + d) acc).bind
          fun a => (digitVal? c).map fun d => a * 10 + d) := by
  simp [List.foldl_append]

theorem parseNat_digitsAux (fuel n : Nat) (hfuel : n + 1 ≤ fuel) :
    (natDigitsAux fuel n).foldl
        (fun acc c => acc.bind fun a => (digitVal? c).map fun d => a * 10 + d) (some 0)
      = some n := by
  induction fuel generalizing n with
  | zero => omega
  | succ f ih =>
    by_cases h : n < 10
    · simp [natDigitsAux, h, digitVal?_digitChar h]
    · have hn : 10 ≤ n := by omega
      have hdiv : n / 10 + 1 ≤ f := by
        have h1 : n / 10 < n := Nat.div_lt_self (by omega) (by norm_num)
        have h2 : n / 10 + 1 ≤ n := by
          have : 1 ≤ n / 10 := Nat.one_le_div_iff (by norm_num) |>.mpr hn
          omega
        omega
      simp only [natDigitsAux, if_neg h]
      rw [foldl_digits_append, ih (n / 10) hdiv]
      simp [digitVal?_digitChar (Nat.mod_lt _ (by norm_num : (0:Nat) < 10))]
      omega

theorem parseNatChars_natDigits (n : Nat) :
    parseNatChars (natDigitsAux (n + 1) n) = some n := by
  unfold parseNatChars
  rw [if_neg (by simp [natDigitsAux_ne_nil (n + 1) n (by omega)])]
  exact parseNat_digitsAux (n + 1) n (le_refl _)

theorem natStr_ne_empty (n : Nat) : natStr n ≠ "" := by
  unfold natStr
  intro h
  have : natDigitsAux (n + 1) n = [] := by
    have := congrArg String.data h
    simpa using this
  exact natDigitsAux_ne_nil (n + 1) n (by omega) this

theorem intStr_ne_empty (i : Int) : intStr i ≠ "" := by
  unfold intStr
  by_cases h : i < 0
  · simp only [if_pos h]
    intro hc
    have := congrArg String.data hc
    simp [String.data_append] at this
  · simp only [if_neg h]
    exact natStr_ne_empty _

theorem natDigits_head_not_sign (n : Nat) :
    ∀ c, (natDigitsAux (n + 1) n).head? = some c → c ≠ '-' ∧ c ≠ '+' := by
  intro c hc
  have hmem : c ∈ natDigitsAux (n + 1) n := by
    cases hh : natDigitsAux (n + 1) n with
    | nil => simp [hh] at hc
    | cons x xs =>
      simp [hh] at hc
      subst hc
      simp [hh]
  have := digitsAux_all_digits (n + 1) n c hmem
  constructor <;> rintro rfl <;> simp [digitVal?] at this

/-- Round trip: the decimal renderer and parser used by the XML codec
invert each other on every integer. -/
theorem parseIntStr_intStr (i : Int) : parseIntStr (intStr i) = some i := by
  by_cases h : i < 0
  · have hi : intStr i = "-" ++ natStr i.natAbs := by simp [intStr, h]
    have hdata : (intStr i).data = '-' :: (natDigitsAux (i.natAbs + 1) i.natAbs) := by
      simp [hi, natStr, String.data_append]
    rw [parseIntStr_eq _ _ _ hdata, if_pos rfl, parseNatChars_natDigits]
    simp only [Option.map_some', Option.some.injEq, Int.ofNat_eq_coe]
    omega
  · have hi : intStr i = natStr i.toNat := by simp [intStr, h]
    have hdata0 : (intStr i).data = natDigitsAux (i.toNat + 1) i.toNat := by
      simp [hi, natStr]
    cases hh : natDigitsAux (i.toNat + 1) i.toNat with
    | nil => exact absurd hh (natDigitsAux_ne_nil _ _ (by omega))
    | cons c cs =>
      obtain ⟨h1, h2⟩ := natDigits_head_not_sign i.toNat c (by simp [hh])
      have hparse : parseNatChars (c :: cs) = some i.toNat := by
        rw [← hh]; exact parseNatChars_natDigits i.toNat
      rw [parseIntStr_eq _ c cs (by rw [hdata0, hh]), if_neg h1, if_neg h2, hparse]
      simp only [Option.map_some', Option.some.injEq, Int.ofNat_eq_coe]
      omega

/-! ### XML element navigation (ElementTree `find` / `findall`) -/

/-- Children of an element with the given tag, in document order. -/
def XElem.childrenNamed (e : XElem) (t : String) : List XElem :=
  e.children.filter (fun c => c.tag == t)

/-- Model of `root.find(path)` for a one-step path such as `./sequence`. -/
def XElem.find1 (e : XElem) (t : String) : Option XElem :=
  (e.childrenNamed t).head?

/-- Model of `root.find(path)` for a two-step path such as
`./metadata/type`: first match in document order. -/
def XElem.findPath (e : XElem) (a b : String) : Option XElem :=
  ((e.childrenNamed a).bind (fun c => c.childrenNamed b)).head?

/-- Model of `root.findall(path)` for a two-step path such as
`./sequence/el`. -/
def XElem.findallPath (e : XElem) (a b : String) : List XElem :=
  (e.childrenNamed a).bind (fun c => c.childrenNamed b)

/-! ### Serializers -/

/-- Truthiness of the result of `dict.get` (`None` when absent). -/
def jTruthyOpt : Option JVal → Bool
  | none => false
  | some v => v.truthy

/-- Sequencing used to model a chain of `x and y and ...` checks that
ends in `return True` / `return False`: if the present check is falsy the
whole chain is `False`, otherwise continue. -/
def andThenTruthy (x : Except Err (Option JVal)) (k : Unit → Except Err Bool) :
    Except Err Bool :=
  match x with
  | .error e => .error e
  | .ok v => if jTruthyOpt v then k () else .ok false

/-- Model of `JSONSerializer._validate_data`: checks `sequence`,
`metadata`, `metadata.type/seq_type/len/el_type/author` truthy, then
`min in metadata.keys()`, then `metadata.max` truthy. The `date_created`
and `date_modified` fields are NOT checked (as in the source). Accessing
`.get` on a non-dict raises `AttributeError`. -/
def jsonValidate (data : JVal) : Except Err Bool :=
  andThenTruthy (jGetOpt data "sequence") fun _ =>
  andThenTruthy (jGetOpt data "metadata") fun _ =>
  match jGetOpt data "metadata" with
  | .error e => .error e
  | .ok mo =>
    let m := mo.getD .jNull
    andThenTruthy (jGetOpt m "type") fun _ =>
    andThenTruthy (jGetOpt m "seq_type") fun _ =>
    andThenTruthy (jGetOpt m "len") fun _ =>
    andThenTruthy (jGetOpt m "el_type") fun _ =>
    andThenTruthy (jGetOpt m "author") fun _ =>
    match jHasKey m "min" with
    | .error e => .error e
    | .ok false => .ok false
    | .ok true =>
      andThenTruthy (jGetOpt m "max") fun _ => .ok true

/-- Model of `JSONSerializer.decode`: `none` input stands for a byte
stream `json.load` rejects (the exception is caught and printed, yielding
`None`); otherwise the parsed value is returned verbatim iff it
validates. -/
def jsonDecode : Option JVal → Except Err (Option JVal)
  | none => .ok none
  | some v =>
    match jsonValidate v with
    | .error e => .error e
    | .ok true => .ok (some v)
    | .ok false => .ok none

/-- Number of elements of a decoded sequence (`len(sequence)`). -/
def jLen : JVal → Nat
  | .jArr xs => xs.length
  | .jObj kvs => kvs.length
  | .jStr s => s.length
  | _ => 0

/-- Model of `JSONSerializer.encode` (the dict passed to `json.dump`);
`now` models `datetime.today().strftime(TIME_FORMAT)`. -/
def jsonEncodeV (seq : JVal) (s_type seq_type cr au : String) (mn mx : Int)
    (now : String) : JVal :=
  .jObj [("sequence", seq),
    ("metadata", .jObj [("type", .jStr s_type), ("seq_type", .jStr seq_type),
      ("len", .jInt (Int.ofNat (jLen seq))), ("el_type", .jStr "int"),
      ("date_created", .jStr cr), ("date_modified", .jStr now),
      ("author", .jStr au), ("min", .jInt mn), ("max", .jInt mx)])]

/-- Continuation step for `XMLSerializer._validate_data` on an element
truthiness test (`find` result is `None` or the element has no
children → falsy, no exception). -/
def xmlCheckEl (o : Option XElem) (k : Unit → Except Err Bool) :
    Except Err Bool :=
  if truthyEl o then k () else .ok false

/-- Continuation step for `XMLSerializer._validate_data` on a
`find(...).text` truthiness test; when `find` returned `None` the `.text`
access raises `AttributeError`, exactly as in the source. -/
def xmlCheckTxt (o : Option XElem) (k : Unit → Except Err Bool) :
    Except Err Bool :=
  match o with
  | none => .error .attrError
  | some e => if truthyTxt e.text then k () else .ok false

/-- Model of `XMLSerializer._validate_data`: `sequence` and `metadata`
elements must have children; then text of `type`, `seq_type`, `len`,
`el_type`, `max`, `date_created`, `date_modified`, `author` must be
non-empty (in this order; `min` is never checked). -/
def xmlValidate (root : XElem) : Except Err Bool :=
  xmlCheckEl (root.find1 "sequence") fun _ =>
  xmlCheckEl (root.find1 "metadata") fun _ =>
  xmlCheckTxt (root.findPath "metadata" "type") fun _ =>
  xmlCheckTxt (root.findPath "metadata" "seq_type") fun _ =>
  xmlCheckTxt (root.findPath "metadata" "len") fun _ =>
  xmlCheckTxt (root.findPath "metadata" "el_type") fun _ =>
  xmlCheckTxt (root.findPath "metadata" "max") fun _ =>
  xmlCheckTxt (root.findPath "metadata" "date_created") fun _ =>
  xmlCheckTxt (root.findPath "metadata" "date_modified") fun _ =>
  xmlCheckTxt (root.findPath "metadata" "author") fun _ => .ok true

/-- Model of `int(element.text)`: `TypeError` on `None`, `ValueError` on
a non-numeric string. -/
def elToInt (e : XElem) : Except Err Int :=
  match e.text with
  | none => .error .typeError
  | some s =>
    match parseIntStr s with
    | none => .error .valueError
    | some i => .ok i

/-- Model of `element.attrib['key']` (`KeyError` when absent). -/
def elKey (e : XElem) : Except Err String :=
  match e.attrs.find? (fun kv => kv.1 == "key") with
  | some kv => .ok kv.2
  | none => .error .keyError

/-- List branch of `XMLSerializer.decode`: `[int(i.text) for i in els]`. -/
def elsToArr : List XElem → Except Err (List JVal)
  | [] => .ok []
  | e :: rest =>
    match elToInt e with
    | .error err => .error err
    | .ok i =>
      match elsToArr rest with
      | .error err => .error err
      | .ok r => .ok (.jInt i :: r)

/-- Insertion into a Python dict: replaces the value (keeping position)
when the key exists, appends otherwise. -/
def dictInsert (m : List (String × Int)) (k : String) (v : Int) :
    List (String × Int) :=
  if m.any (fun kv => kv.1 == k) then
    m.map (fun kv => if kv.1 == k then (k, v) else kv)
  else m ++ [(k, v)]

/-- Dict branch of `XMLSerializer.decode`:
`{i.attrib['key']: int(i.text) for i in els}`. -/
def elsToDict : List XElem → List (String × Int) →
    Except Err (List (String × Int))
  | [], acc => .ok acc
  | e :: rest, acc =>
    match elKey e with
    | .error err => .error err
    | .ok k =>
      match elToInt e with
      | .error err => .error err
      | .ok i => elsToDict rest (dictInsert acc k i)

/-- Model of `root.find(path).text` for a metadata field, converted to a
JSON value (`None` text becomes `null`); `AttributeError` when the
element is missing. -/
def metaTextJ (root : XElem) (name : String) : Except Err JVal :=
  match root.findPath "metadata" name with
  | none => .error .attrError
  | some e =>
    .ok (match e.text with
         | none => .jNull
         | some s => .jStr s)

/-- Model of `int(root.find(path).text)` for a metadata field. -/
def metaInt (root : XElem) (name : String) : Except Err Int :=
  match root.findPath "metadata" name with
  | none => .error .attrError
  | some e => elToInt e

/-- Model of `XMLSerializer.decode`: `none` input stands for a byte
stream `ET.parse` rejects (caught and printed, yielding `None`). On a
parsed tree, validation runs first; when it passes, the sequence and the
metadata fields are extracted, raising on missing elements or
unparseable text, and the result is the same dict shape the JSON decoder
returns, with `len` re-derived from the decoded sequence. -/
def xmlDecode : Option XElem → Except Err (Option JVal)
  | none => .ok none
  | some root =>
    match xmlValidate root with
    | .error e => .error e
    | .ok false => .ok none
    | .ok true =>
      match root.findPath "metadata" "type" with
      | none => .error .attrError
      | some tyEl =>
        let ty := tyEl.text
        let seqE : Except Err JVal :=
          if ty = some "dict" then
            match elsToDict (root.findallPath "sequence" "el") [] with
            | .error e => .error e
            | .ok kvs => .ok (.jObj (kvs.map (fun kv => (kv.1, JVal.jInt kv.2))))
          else
            match elsToArr (root.findallPath "sequence" "el") with
            | .error e => .error e
            | .ok xs => .ok (.jArr xs)
        match seqE with
        | .error e => .error e
        | .ok seq =>
          match metaTextJ root "seq_type" with
          | .error e => .error e
          | .ok st =>
            match metaTextJ root "date_created" with
            | .error e => .error e
            | .ok dc =>
              match metaTextJ root "date_modified" with
              | .error e => .error e
              | .ok dm =>
                match metaTextJ root "author" with
                | .error e => .error e
                | .ok au =>
                  match metaInt root "min" with
                  | .error e => .error e
                  | .ok mn =>
                    match metaInt root "max" with
                    | .error e => .error e
                    | .ok mx =>
                      .ok (some (.jObj [("sequence", seq),
                        ("metadata", .jObj [
                          ("type", match ty with
                                   | none => .jNull
                                   | some s => .jStr s),
                          ("seq_type", st),
                          ("len", .jInt (Int.ofNat (jLen seq))),
                          ("el_type", .jStr "int"),
                          ("date_created", dc),
                          ("date_modified", dm),
                          ("author", au),
                          ("min", .jInt mn),
                          ("max", .jInt mx)])]))

/-- Model of Python `str(x)` on the values that can appear in a decoded
sequence. Containers are given a placeholder rendering: the modelled
flows never stringify a container. -/
def jvalStr : JVal → String
  | .jInt i => intStr i
  | .jStr s => s
  | .jNull => "None"
  | .jBool b => if b then "True" else "False"
  | .jArr _ => "<container>"
  | .jObj _ => "<container>"

/-- Sequence elements written by `XMLSerializer.encode`. For a dict the
loop iterates over KEYS: the attribute and the text are both the key
string, so the stored value is the key, not the dict value (the two
coincide for the dicts this module builds, whose key is the decimal
string of the value). -/
def xmlSeqEls : JVal → List XElem
  | .jObj kvs => kvs.map (fun kv => XElem.mk "el" [("key", kv.1)] (some kv.1) [])
  | .jArr xs => xs.map (fun x => XElem.mk "el" [] (some (jvalStr x)) [])
  | _ => []

def mkTextEl (tag s : String) : XElem := XElem.mk tag [] (some s) []

/-- Model of `XMLSerializer.encode` as the element tree that is
serialized to the file. -/
def xmlEncodeV (seq : JVal) (s_type seq_type cr au : String) (mn mx : Int)
    (now : String) : XElem :=
  XElem.mk "data" [] none [
    XElem.mk "sequence" [] none (xmlSeqEls seq),
    XElem.mk "metadata" [] none [
      mkTextEl "type" s_type, mkTextEl "seq_type" seq_type,
      mkTextEl "len" (natStr (jLen seq)), mkTextEl "el_type" "int",
      mkTextEl "date_created" cr, mkTextEl "date_modified" now,
      mkTextEl "author" au, mkTextEl "min" (intStr mn),
      mkTextEl "max" (intStr mx)]]

/-! ### Python integer division and modulo -/

/-- Python `a % b` (sign of the divisor), with `ZeroDivisionError`. -/
def pyMod (a b : Int) : Except Err Int :=
  if b = 0 then .error .zeroDiv else .ok (Int.fmod a b)

/-- Python `a // b` (floor division), with `ZeroDivisionError`. -/
def pyFloorDiv (a b : Int) : Except Err Int :=
  if b = 0 then .error .zeroDiv else .ok (Int.fdiv a b)

/-! ### The four generator families -/

/-- The generator classes: `ListGenerator`, `TupleGenerator`,
`SetGenerator`, `DictGenerator`. -/
inductive GKind where
  | glist
  | gtuple
  | gset
  | gdict
  deriving DecidableEq, Repr

/-- `_sequence_type()`: the declared container-type tag. -/
def seqTypeName : GKind → String
  | .glist => "list"
  | .gtuple => "tuple"
  | .gset => "set"
  | .gdict => "dict"

/-- `repr(self)`: the class name, stored as the record author. -/
def genName : GKind → String
  | .glist => "ListGenerator"
  | .gtuple => "TupleGenerator"
  | .gset => "SetGenerator"
  | .gdict => "DictGenerator"

/-- `_sequence_type_check` on a string: list/tuple accept `list`,
`tuple` or `set`; set accepts only `set`; dict accepts only `dict`. -/
def typeCheckStr (g : GKind) (s : String) : Bool :=
  match g with
  | .glist | .gtuple => s == "list" || s == "tuple" || s == "set"
  | .gset => s == "set"
  | .gdict => s == "dict"

/-- `_sequence_type_check` on a decoded metadata value: a Python `==`
between a string and a non-string is `False`, never an error. -/
def typeCheckJ (g : GKind) (v : JVal) : Bool :=
  match v with
  | .jStr s => typeCheckStr g s
  | _ => false

/-- Python `==` between a decoded value and an int. -/
def jEqInt : JVal → Int → Bool
  | .jInt j, i => j == i
  | _, _ => false

/-- Python `==` between a decoded value and a string. -/
def jEqStrVal : JVal → String → Bool
  | .jStr s, t => s == t
  | _, _ => false

/-- Model of `BaseGenerator.__max_in_range`. With `stop = None` the
validations are skipped (they sit in `elif` branches); `step = 0`
reaches `% step` and raises `ZeroDivisionError`; a negative step or
`start > stop` raises `InvalidValueError`. -/
def maxInRange (start : Int) (stop : Option Int) (step : Int) :
    Except Err Int :=
  match stop with
  | none =>
    match pyMod ((start - 1) - 0) step with
    | .error e => .error e
    | .ok r => .ok ((start - 1) - r)
  | some sp =>
    if step < 0 then .error .invalidValue
    else if start > sp then .error .invalidValue
    else
      match pyMod ((sp - 1) - start) step with
      | .error e => .error e
      | .ok r => .ok ((sp - 1) - r)

/-- The `while n < stop: yield n; n += step` loop of `_custom_range`,
fuel-based so it reduces in the kernel. The loop body is reached only
with `step ≥ 1` (a negative step raises earlier and `step = 0` raises at
`% step`), for which `(stop - start).toNat` fuel is sufficient. -/
def rangeLoop : Nat → Int → Int → Int → List Int
  | 0, _, _, _ => []
  | fuel + 1, n, stop, step =>
    if n < stop then n :: rangeLoop fuel (n + step) stop step else []

def rangeList (start stop step : Int) : List Int :=
  rangeLoop (stop - start).toNat start stop step

/-- The element count computed by `_custom_range`:
`seq_length = (stop - start) // step`, plus one when
`(stop - start) % step` is non-zero. -/
def rangeCount (start stop step : Int) : Int :=
  if Int.fmod (stop - start) step = 0 then Int.fdiv (stop - start) step
  else Int.fdiv (stop - start) step + 1

/-- Model of `_custom_range` as invoked from `_create_sequence` (the
`stop is None` branch is resolved by the caller, which always passes a
concrete stop): validations, then `remainder = (stop - start) % step`
(raising `ZeroDivisionError` when `step = 0`), the ceiling length
`rangeCount`, the `__check_seq_length` bound (raising
`InvalidSequenceLength` carrying the configured limit), then the yielded
list. -/
def customRange (maxLen : Int) (start stop step : Int) :
    Except Err (List Int) :=
  if step < 0 then .error .invalidValue
  else if start > stop then .error .invalidValue
  else if step = 0 then .error .zeroDiv
  else if rangeCount start stop step < maxLen then .ok (rangeList start stop step)
  else .error (.invalidSeqLength maxLen)

/-- `_create_sequence`: list/tuple/set build a Python list of the range
(the set variant inherits the list builder), dict builds
`{str(i): i for i in range}`. -/
def createSeq (g : GKind) (maxLen : Int) (start stop step : Int) :
    Except Err JVal :=
  match customRange maxLen start stop step with
  | .error e => .error e
  | .ok l =>
    match g with
    | .gdict => .ok (.jObj (l.map (fun i => (intStr i, JVal.jInt i))))
    | _ => .ok (.jArr (l.map JVal.jInt))

/-- Model of `BaseGenerator.__check_equal_sequences` on the decoded
data. The implied step `(max - min) // (len - 1)` is computed FIRST for
range requests (raising `ZeroDivisionError` when `len = 1`, or
`TypeError`/`KeyError` on ill-typed metadata); then the container-type,
`seq_type`, `max`/`min` and step comparisons are combined. -/
def checkEqualJ (g : GKind) (dt : String) (d : Option JVal)
    (min_el max_el step : Int) : Except Err Bool :=
  match d with
  | none => .ok false
  | some dv =>
    match jIndex dv "metadata" with
    | .error e => .error e
    | .ok meta =>
      let jstepE : Except Err Int :=
        if dt == "range" then
          match jIndex meta "max" with
          | .error e => .error e
          | .ok mxv =>
            match jIndex meta "min" with
            | .error e => .error e
            | .ok mnv =>
              match jIndex meta "len" with
              | .error e => .error e
              | .ok lnv =>
                match mxv, mnv, lnv with
                | .jInt mx, .jInt mn, .jInt ln => pyFloorDiv (mx - mn) (ln - 1)
                | _, _, _ => .error .typeError
        else .ok 0
      match jstepE with
      | .error e => .error e
      | .ok jstep =>
        match jIndex meta "type" with
        | .error e => .error e
        | .ok tv =>
          match jIndex meta "seq_type" with
          | .error e => .error e
          | .ok sv =>
            match jIndex meta "max" with
            | .error e => .error e
            | .ok mxv =>
              match jIndex meta "min" with
              | .error e => .error e
              | .ok mnv =>
                .ok (typeCheckJ g tv && jEqStrVal sv dt &&
                     (jEqInt mxv max_el && jEqInt mnv min_el) &&
                     (step == jstep))

/-! ### Fibonacci -/

/-- The loop of `BaseGenerator.__fibonacci`. -/
def fibIter : Int → Int → Nat → Int
  | a, _, 0 => a
  | a, b, k + 1 => fibIter b (a + b) k

/-- `__fibonacci(first, second, n)`: iterate `n - 1` times (zero times
when `n ≤ 1`, as Python `range(n - 1)` is then empty). -/
def pyFib (first second n : Int) : Int :=
  fibIter first second (n - 1).toNat

/-- The fresh Fibonacci sequence built by `generate_fibonacci`:
`[first, second]` then `__fibonacci(first, second, i)` for
`i in range(3, length + 1)`. -/
def fibSeqList (first second length : Int) : List Int :=
  first :: second ::
    (List.range (length - 2).toNat).map
      (fun j => pyFib first second (Int.ofNat j + 3))

/-- List of ints behind a decoded `jArr`, if homogeneous. -/
def jArrInts : List JVal → Option (List Int)
  | [] => some []
  | .jInt i :: rest => (jArrInts rest).map (fun r => i :: r)
  | _ => none

/-- Model of `int(max(sequence))`: on a list, the greatest int
(`TypeError` on mixed content, `ValueError` when empty); on a dict,
`max` iterates the KEYS, so the lexicographically greatest key string is
passed to `int`. -/
def pyMaxJ (v : JVal) : Except Err Int :=
  match v with
  | .jArr xs =>
    match jArrInts xs with
    | none => .error .typeError
    | some l =>
      match l with
      | [] => .error .valueError
      | x :: rest => .ok (rest.foldl max x)
  | .jObj kvs =>
    match kvs.map (fun kv => kv.1) with
    | [] => .error .valueError
    | k :: rest =>
      match parseIntStr (rest.foldl (fun a b => if a < b then b else a) k) with
      | none => .error .valueError
      | some i => .ok i
  | _ => .error .typeError

/-! ### The on-disk state and the persistence orchestrator -/

/-- Contents of one of the two data files: what the last write put there
(a JSON document for `data.json`, an element tree for `data.xml`). -/
inductive FileVal where
  | jv (v : JVal)
  | xv (t : XElem)

/-- One on-disk file: its creation timestamp (already rendered in
`TIME_FORMAT`) and its contents (`none` models an empty file). -/
structure SFile where
  ctime : String
  fdata : Option FileVal

/-- The pair of data files; `none` models a file that does not exist. -/
structure FS where
  jsonF : Option SFile
  xmlF : Option SFile

def FS.empty : FS := ⟨none, none⟩

/-- Model of `__remove_unsupported_file`: delete the opposite-format
file if it exists (the `data_format` string-type check cannot fail in
the typed embedding). -/
def removeUnsupported (fs : FS) (fmt : String) : FS :=
  if fs.jsonF.isSome && fmt == "xml" then { fs with jsonF := none }
  else if fs.xmlF.isSome && fmt == "json" then { fs with xmlF := none }
  else fs

/-- The formats `__get_serializer` / `__get_path` accept. -/
def fmtOk (fmt : String) : Bool := fmt == "xml" || fmt == "json"

/-- The file slot the requested format maps to. -/
def FS.target (fs : FS) (fmt : String) : Option SFile :=
  if fmt == "xml" then fs.xmlF else fs.jsonF

def FS.setTarget (fs : FS) (fmt : String) (f : SFile) : FS :=
  if fmt == "xml" then { fs with xmlF := some f } else { fs with jsonF := some f }

/-- Dispatch of `serializer.decode` on the file contents. A slot holding
bytes of the other format cannot arise from the modelled operations; it
is treated as a parse failure (absent). -/
def decodeFile (fmt : String) (fv : FileVal) : Except Err (Option JVal) :=
  match fv with
  | .xv t => if fmt == "xml" then xmlDecode (some t) else .ok none
  | .jv v => if fmt == "xml" then .ok none else jsonDecode (some v)

/-- Dispatch of `serializer.encode` producing the new file contents. -/
def encodeFile (fmt : String) (seq : JVal) (s_type seq_type cr au : String)
    (mn mx : Int) (now : String) : FileVal :=
  if fmt == "xml" then .xv (xmlEncodeV seq s_type seq_type cr au mn mx now)
  else .jv (jsonEncodeV seq s_type seq_type cr au mn mx now)

/-- The read-and-check prefix shared by `generate_sequence` and
`generate_fibonacci`: if the target file is non-empty, decode it and run
`__check_equal_sequences`; a hit extracts `data['sequence']` for reuse,
a miss (or an empty/absent decode) yields `none`. Decode and checker
exceptions propagate. -/
def tryReuse (g : GKind) (fmt dt : String) (fd : Option FileVal)
    (min_el max_el step : Int) : Except Err (Option JVal) :=
  match fd with
  | none => .ok none
  | some fv =>
    match decodeFile fmt fv with
    | .error e => .error e
    | .ok d =>
      match checkEqualJ g dt d min_el max_el step with
      | .error e => .error e
      | .ok false => .ok none
      | .ok true =>
        match d with
        | none => .ok none
        | some dv =>
          match jIndex dv "sequence" with
          | .error e => .error e
          | .ok s => .ok (some s)

/-- Model of `BaseGenerator.generate_sequence`. Order as in the source:
remove the opposite-format file, resolve serializer/path (invalid format
raises `InvalidValueError`), compute `__max_in_range` (which can raise),
normalize a `None` stop, open the target file with `a+` (creating it,
with `now` as its creation time, when absent), try to reuse the stored
sequence, otherwise build a fresh one (which can raise the length
guard), then encode with the file's creation time as `date_created` and
truncate-and-write. Raises leave the state reached so far. -/
def normStart (start0 : Int) (stop0 : Option Int) : Int :=
  match stop0 with
  | none => 0
  | some _ => start0

def normStop (start0 : Int) (stop0 : Option Int) : Int :=
  match stop0 with
  | none => start0
  | some s => s

def generate_sequence (g : GKind) (maxLen : Int) (fs0 : FS) (now fmt : String)
    (start0 : Int) (stop0 : Option Int) (step : Int) : FS × Option Err :=
  let fs1 := removeUnsupported fs0 fmt
  if !fmtOk fmt then (fs1, some .invalidValue)
  else
    match maxInRange start0 stop0 step with
    | .error e => (fs1, some e)
    | .ok maxEl =>
      let start := normStart start0 stop0
      let stop := normStop start0 stop0
      let f := (fs1.target fmt).getD ⟨now, none⟩
      let fs2 := fs1.setTarget fmt f
      match tryReuse g fmt "range" f.fdata start maxEl step with
      | .error e => (fs2, some e)
      | .ok seqOpt =>
        let seqE : Except Err JVal :=
          match seqOpt with
          | some s => .ok s
          | none => createSeq g maxLen start stop step
        match seqE with
        | .error e => (fs2, some e)
        | .ok seq =>
          (fs2.setTarget fmt
            { f with fdata := some (encodeFile fmt seq (seqTypeName g) "range"
                f.ctime (genName g) start maxEl now) }, none)

/-- Model of `BaseGenerator.generate_fibonacci`. Order as in the source:
remove the opposite-format file, `__check_seq_length(length)` (raising
`InvalidSequenceLength` when `length ≥ maxLen`), resolve
serializer/path, open/create the target file, try to reuse (the checker
compares against `__fibonacci(first, second, length - 1)`), otherwise
build the full candidate list and hand it to `_generate_fibonacci` —
which raises `FibonacciError` for the set and dict generators — then
store with `min = first` and `max = int(max(sequence))`. -/
def generate_fibonacci (g : GKind) (maxLen : Int) (fs0 : FS) (now fmt : String)
    (first second length : Int) : FS × Option Err :=
  let fs1 := removeUnsupported fs0 fmt
  if !(length < maxLen) then (fs1, some (.invalidSeqLength maxLen))
  else if !fmtOk fmt then (fs1, some .invalidValue)
  else
    let f := (fs1.target fmt).getD ⟨now, none⟩
    let fs2 := fs1.setTarget fmt f
    match tryReuse g fmt "fibonacci" f.fdata first
        (pyFib first second (length - 1)) 0 with
    | .error e => (fs2, some e)
    | .ok seqOpt =>
      let seqE : Except Err JVal :=
        match seqOpt with
        | some s => .ok s
        | none =>
          match g with
          | .gset => .error .fibonacci
          | .gdict => .error .fibonacci
          | _ => .ok (.jArr ((fibSeqList first second length).map JVal.jInt))
      match seqE with
      | .error e => (fs2, some e)
      | .ok seq =>
        match pyMaxJ seq with
        | .error e => (fs2, some e)
        | .ok mx =>
          (fs2.setTarget fmt
            { f with fdata := some (encodeFile fmt seq (seqTypeName g)
                "fibonacci" f.ctime (genName g) first mx now) }, none)

/-! ### The read path -/

mutual

/-- Structural equality of decoded values, modelling Python `==` as used
by `set()` de-duplication on the values this module stores. -/
def JVal.beq : JVal → JVal → Bool
  | .jNull, .jNull => true
  | .jBool a, .jBool b => a == b
  | .jInt a, .jInt b => a == b
  | .jStr a, .jStr b => a == b
  | .jArr a, .jArr b => JVal.beqL a b
  | .jObj a, .jObj b => JVal.beqKV a b
  | _, _ => false

/-- Elementwise equality of decoded lists. -/
def JVal.beqL : List JVal → List JVal → Bool
  | [], [] => true
  | x :: xs, y :: ys => JVal.beq x y && JVal.beqL xs ys
  | _, _ => false

/-- Elementwise equality of decoded objects. -/
def JVal.beqKV : List (String × JVal) → List (String × JVal) → Bool
  | [], [] => true
  | (k1, v1) :: xs, (k2, v2) :: ys => k1 == k2 && JVal.beq v1 v2 && JVal.beqKV xs ys
  | _, _ => false

end

/-- A Python value as returned by `get_sequence`: either the decoded
value itself (list generator and dict generator return it unchanged), or
a tuple / set coercion of it. Set contents are kept in first-occurrence
order (Python set ordering is not observable through `==`). -/
inductive PyVal where
  | ofJ (v : JVal)
  | pTuple (xs : List JVal)
  | pSet (xs : List JVal)

/-- De-duplication performed by `set(...)`. -/
def pyDedup (xs : List JVal) : List JVal :=
  xs.foldl (fun acc x => if acc.any (fun y => JVal.beq y x) then acc else acc ++ [x]) []

/-- The subclass coercions wrapped around `BaseGenerator.get_sequence`:
`TupleGenerator` applies `tuple(...)`, `SetGenerator` applies `set(...)`
(iterating a dict yields its keys, a string its characters; coercing a
non-iterable raises `TypeError`); the list and dict generators return
the base result unchanged. -/
def shapeCoerce (g : GKind) (v : JVal) : Except Err PyVal :=
  match g with
  | .glist => .ok (.ofJ v)
  | .gdict => .ok (.ofJ v)
  | .gtuple =>
    match v with
    | .jArr xs => .ok (.pTuple xs)
    | .jObj kvs => .ok (.pTuple (kvs.map (fun kv => JVal.jStr kv.1)))
    | .jStr s => .ok (.pTuple (s.data.map (fun c => JVal.jStr (String.mk [c]))))
    | _ => .error .typeError
  | .gset =>
    match v with
    | .jArr xs => .ok (.pSet (pyDedup xs))
    | .jObj kvs => .ok (.pSet (pyDedup (kvs.map (fun kv => JVal.jStr kv.1))))
    | .jStr s => .ok (.pSet (pyDedup (s.data.map (fun c => JVal.jStr (String.mk [c])))))
    | _ => .error .typeError

/-- Truthiness of `os.path.exists(p) and os.path.getsize(p) != 0`. -/
def nonEmptyF : Option SFile → Bool
  | some f => f.fdata.isSome
  | none => false

/-- Model of `get_sequence` (with the subclass coercions folded in).
XML is probed first; when neither file is non-empty the base class
returns the empty LIST `[]`, which the subclass wrappers then coerce.
On a decoded record: absent decode raises `InvalidValueError`, a failed
container-type check raises `InvalidTypeError`, `len > max_length`
raises `InvalidSequenceLength`; otherwise `data['sequence']` is returned
coerced. The state is returned unchanged: this path never writes. -/
def get_sequence (g : GKind) (maxLen : Int) (fs : FS) :
    FS × Except Err PyVal :=
  if nonEmptyF fs.xmlF || nonEmptyF fs.jsonF then
    let fmt := if nonEmptyF fs.xmlF then "xml" else "json"
    match fs.target fmt with
    | none => (fs, .error .invalidValue)
    | some f =>
      match f.fdata with
      | none => (fs, .error .invalidValue)
      | some fv =>
        match decodeFile fmt fv with
        | .error e => (fs, .error e)
        | .ok none => (fs, .error .invalidValue)
        | .ok (some d) =>
          match jIndex d "metadata" with
          | .error e => (fs, .error e)
          | .ok meta =>
            match jIndex meta "type" with
            | .error e => (fs, .error e)
            | .ok tv =>
              if !typeCheckJ g tv then (fs, .error .invalidType)
              else
                match jIndex meta "len" with
                | .error e => (fs, .error e)
                | .ok lv =>
                  match lv with
                  | .jInt ln =>
                    if ln > maxLen then (fs, .error (.invalidSeqLength maxLen))
                    else
                      match jIndex d "sequence" with
                      | .error e => (fs, .error e)
                      | .ok s => (fs, shapeCoerce g s)
                  | _ => (fs, .error .typeError)
  else
    (fs, shapeCoerce g (.jArr []))

/-! ### Arithmetic facts about the range loop -/

theorem int_emod_le_self (y s : Int) (hy : 0 ≤ y) (hs : 0 < s) : y % s ≤ y := by
  by_cases h : y < s
  · rw [Int.emod_eq_of_lt hy h]
  · have := Int.emod_lt_of_pos y hs
    omega

theorem rangeLoop_nil (fuel : Nat) (n stop step : Int) (h : ¬ n < stop) :
    rangeLoop fuel n stop step = [] := by
  cases fuel <;> simp [rangeLoop, h]

/-- The greatest element of the `while` loop output is
`(stop - 1) - ((stop - 1) - start) % step`, and it is attained. -/
theorem rangeLoop_max (fuel : Nat) :
    ∀ (start stop step : Int), 1 ≤ step → start < stop →
      (stop - start).toNat ≤ fuel →
      ((stop - 1) - ((stop - 1) - start) % step) ∈ rangeLoop fuel start stop step ∧
      ∀ x ∈ rangeLoop fuel start stop step,
        x ≤ (stop - 1) - ((stop - 1) - start) % step := by
  induction fuel with
  | zero =>
    intro start stop step _ hlt hfuel
    exfalso
    omega
  | succ f ih =>
    intro start stop step hstep hlt hfuel
    have hlist : rangeLoop (f + 1) start stop step
        = start :: rangeLoop f (start + step) stop step := by
      simp [rangeLoop, hlt]
    by_cases hnext : start + step < stop
    · have hfuel2 : (stop - (start + step)).toNat ≤ f := by omega
      obtain ⟨hmem, hbd⟩ := ih (start + step) stop step hstep hnext hfuel2
      have hmodeq : ((stop - 1) - (start + step)) % step
          = ((stop - 1) - start) % step := by
        have heq : (stop - 1) - (start + step)
            = ((stop - 1) - start) + step * (-1) := by ring
        rw [heq, Int.add_mul_emod_self_left]
      rw [hmodeq] at hmem hbd
      have hstart_le : start ≤ (stop - 1) - ((stop - 1) - start) % step := by
        have h1 : ((stop - 1) - start) % step ≤ (stop - 1) - start :=
          int_emod_le_self _ _ (by omega) (by omega)
        omega
      rw [hlist]
      refine ⟨List.mem_cons_of_mem _ hmem, fun x hx => ?_⟩
      rcases List.mem_cons.mp hx with rfl | hx2
      · exact hstart_le
      · exact hbd x hx2
    · have hrec : rangeLoop f (start + step) stop step = [] :=
        rangeLoop_nil _ _ _ _ hnext
      have hmod : ((stop - 1) - start) % step = (stop - 1) - start :=
        Int.emod_eq_of_lt (by omega) (by omega)
      rw [hlist, hrec, hmod]
      constructor
      · simp only [List.mem_singleton]
        omega
      · intro x hx
        rcases List.mem_cons.mp hx with rfl | hx2
        · omega
        · cases hx2

theorem rangeList_max (start stop step : Int) (hstep : 1 ≤ step)
    (hlt : start < stop) :
    ((stop - 1) - ((stop - 1) - start) % step) ∈ rangeList start stop step ∧
    ∀ x ∈ rangeList start stop step,
      x ≤ (stop - 1) - ((stop - 1) - start) % step :=
  rangeLoop_max _ start stop step hstep hlt (le_refl _)

theorem maxInRange_some (start stop step : Int) (hstep : 1 ≤ step)
    (hle : start ≤ stop) :
    maxInRange start (some stop) step
      = .ok ((stop - 1) - ((stop - 1) - start) % step) := by
  simp only [maxInRange, pyMod, if_neg (show ¬ step < 0 by omega),
    if_neg (show ¬ start > stop by omega), if_neg (show ¬ step = 0 by omega)]
  rw [Int.fmod_eq_emod _ (by omega)]

/-! ### Facts about the Fibonacci recurrence -/

theorem fibIter_lt (k : Nat) : ∀ a b : Int, 1 ≤ a → a < b →
    fibIter a b k < fibIter a b (k + 1) := by
  induction k with
  | zero =>
    intro a b _ hab
    simpa [fibIter] using hab
  | succ n ih =>
    intro a b ha hab
    show fibIter b (a + b) n < fibIter b (a + b) (n + 1)
    exact ih b (a + b) (by omega) (by omega)

theorem fibIter_le (k : Nat) : ∀ a b : Int, 1 ≤ a → a ≤ b →
    fibIter a b k ≤ fibIter a b (k + 1) := by
  induction k with
  | zero =>
    intro a b _ hab
    simpa [fibIter] using hab
  | succ n ih =>
    intro a b ha hab
    show fibIter b (a + b) n ≤ fibIter b (a + b) (n + 1)
    exact ih b (a + b) (by omega) (by omega)

theorem fibIter_mono (a b : Int) (ha : 1 ≤ a) (hab : a ≤ b) (j : Nat) :
    ∀ k : Nat, j ≤ k → fibIter a b j ≤ fibIter a b k := by
  intro k
  induction k with
  | zero =>
    intro h
    have hj : j = 0 := by omega
    subst hj
    exact le_rfl
  | succ n ih =>
    intro h
    rcases Nat.lt_or_ge j (n + 1) with h1 | h2
    · exact le_trans (ih (by omega)) (fibIter_le n a b ha hab)
    · have hj : j = n + 1 := by omega
      subst hj
      exact le_rfl

/-- For seeds `1 ≤ first ≤ second` and `n ≥ 3`, the `(n-1)`-th term is
strictly below the `n`-th. -/
theorem pyFib_lt (a b n : Int) (ha : 1 ≤ a) (hab : a ≤ b) (hn : 3 ≤ n) :
    pyFib a b (n - 1) < pyFib a b n := by
  unfold pyFib
  have h1 : (n - 1 - 1).toNat = (n - 3).toNat + 1 := by omega
  have h2 : (n - 1).toNat = (n - 3).toNat + 2 := by omega
  rw [h1, h2]
  show fibIter b (a + b) (n - 3).toNat < fibIter b (a + b) ((n - 3).toNat + 1)
  exact fibIter_lt _ b (a + b) (by omega) (by omega)

theorem pyFib_le_of_le (a b : Int) (ha : 1 ≤ a) (hab : a ≤ b)
    (i n : Int) (_hi : 1 ≤ i) (hin : i ≤ n) :
    pyFib a b i ≤ pyFib a b n := by
  unfold pyFib
  exact fibIter_mono a b ha hab _ _ (by omega)

theorem fibSeq_bounded (a b n : Int) (ha : 1 ≤ a) (hab : a ≤ b)
    (hn : 3 ≤ n) :
    ∀ x ∈ fibSeqList a b n, x ≤ pyFib a b n := by
  intro x hx
  unfold fibSeqList at hx
  rcases List.mem_cons.mp hx with heq | hx2
  · rw [heq]
    show pyFib a b 1 ≤ pyFib a b n
    exact pyFib_le_of_le a b ha hab 1 n (by omega) (by omega)
  · rcases List.mem_cons.mp hx2 with heq | hx3
    · rw [heq]
      show pyFib a b 2 ≤ pyFib a b n
      exact pyFib_le_of_le a b ha hab 2 n (by omega) (by omega)
    · obtain ⟨j, hj, heq⟩ := List.mem_map.mp hx3
      have hjr := List.mem_range.mp hj
      rw [← heq]
      apply pyFib_le_of_le a b ha hab _ n
      · simp only [Int.ofNat_eq_coe]
        omega
      · simp only [Int.ofNat_eq_coe]
        omega

theorem pyFib_mem_fibSeq (a b n : Int) (hn : 3 ≤ n) :
    pyFib a b n ∈ fibSeqList a b n := by
  unfold fibSeqList
  apply List.mem_cons_of_mem
  apply List.mem_cons_of_mem
  apply List.mem_map.mpr
  refine ⟨(n - 3).toNat, List.mem_range.mpr (by omega), ?_⟩
  congr 1
  simp only [Int.ofNat_eq_coe]
  omega

/-! ### Maximum extraction -/

theorem foldl_max_eq (l : List Int) : ∀ (a m : Int), a ≤ m →
    (∀ x ∈ l, x ≤ m) → (m = a ∨ m ∈ l) → l.foldl max a = m := by
  induction l with
  | nil =>
    intro a m _ _ hm
    rcases hm with rfl | h
    · rfl
    · cases h
  | cons x xs ih =>
    intro a m ham hl hm
    simp only [List.foldl_cons]
    have hx : x ≤ m := hl x (by simp)
    rcases hm with heq | hm2
    · subst heq
      rw [max_eq_left hx]
      exact ih m m le_rfl (fun y hy => hl y (List.mem_cons_of_mem _ hy)) (Or.inl rfl)
    · rcases List.mem_cons.mp hm2 with heq | hm3
      · subst heq
        rw [max_eq_right ham]
        exact ih m m le_rfl (fun y hy => hl y (List.mem_cons_of_mem _ hy)) (Or.inl rfl)
      · exact ih (max a x) m (max_le ham hx)
          (fun y hy => hl y (List.mem_cons_of_mem _ hy)) (Or.inr hm3)

theorem jArrInts_map (l : List Int) : jArrInts (l.map JVal.jInt) = some l := by
  induction l with
  | nil => rfl
  | cons x xs ih => simp [jArrInts, ih]

theorem jArrInts_cons (x : Int) (rest : List Int) :
    jArrInts (JVal.jInt x :: rest.map JVal.jInt) = some (x :: rest) := by
  simp [jArrInts, jArrInts_map]

theorem pyMaxJ_arr (x : Int) (rest : List Int) :
    pyMaxJ (.jArr ((x :: rest).map JVal.jInt)) = .ok (rest.foldl max x) := by
  simp [pyMaxJ, jArrInts_cons]

/-- `int(max(sequence))` on the fresh Fibonacci list is its last term. -/
theorem pyMaxJ_fibSeq (a b n : Int) (ha : 1 ≤ a) (hab : a ≤ b) (hn : 3 ≤ n) :
    pyMaxJ (.jArr ((fibSeqList a b n).map JVal.jInt)) = .ok (pyFib a b n) := by
  have htail : fibSeqList a b n
      = a :: (b :: (List.range (n - 2).toNat).map
          (fun j => pyFib a b (Int.ofNat j + 3))) := rfl
  rw [htail, pyMaxJ_arr]
  congr 1
  apply foldl_max_eq
  · show pyFib a b 1 ≤ pyFib a b n
    exact pyFib_le_of_le a b ha hab 1 n (by omega) (by omega)
  · intro y hy
    apply fibSeq_bounded a b n ha hab hn
    rw [htail]
    exact List.mem_cons_of_mem _ hy
  · have hmem := pyFib_mem_fibSeq a b n hn
    rw [htail] at hmem
    rcases List.mem_cons.mp hmem with heq | hmem2
    · exact Or.inl heq
    · exact Or.inr hmem2

/-! ### Codec round-trip lemmas -/

theorem jsonValidate_encode (seq : JVal) (ty sq cr au : String) (mn mx : Int)
    (now : String) (hseq : seq.truthy = true) (hty : ty ≠ "") (hsq : sq ≠ "")
    (hlen : jLen seq ≠ 0) (hau : au ≠ "") (hmx : mx ≠ 0) :
    jsonValidate (jsonEncodeV seq ty sq cr au mn mx now) = .ok true := by
  have hlen2 : (Int.ofNat (jLen seq) != 0) = true := by
    simp [Int.ofNat_eq_coe]
    omega
  simp [jsonValidate, jsonEncodeV, jGetOpt, jHasKey, andThenTruthy, jTruthyOpt,
    hseq, hty, hsq, hau, hmx, hlen2, List.find?, hlen]
  simp [JVal.truthy, hty, hsq, hau, hmx, hlen2]
  exact hlen

/-- The JSON codec round trip: an encoded record with a truthy (non-empty)
sequence, non-empty tags and a non-zero `max` validates and is returned
verbatim by `decode`. -/
theorem jsonDecode_encode (seq : JVal) (ty sq cr au : String) (mn mx : Int)
    (now : String) (hseq : seq.truthy = true) (hty : ty ≠ "") (hsq : sq ≠ "")
    (hlen : jLen seq ≠ 0) (hau : au ≠ "") (hmx : mx ≠ 0) :
    jsonDecode (some (jsonEncodeV seq ty sq cr au mn mx now))
      = .ok (some (jsonEncodeV seq ty sq cr au mn mx now)) := by
  simp only [jsonDecode]
  rw [jsonValidate_encode seq ty sq cr au mn mx now hseq hty hsq hlen hau hmx]
theorem xmlSeqEls_tag_mem (seq : JVal) :
    ∀ a ∈ xmlSeqEls seq, a.tag = "el" := by
  intro a ha
  cases seq <;> simp [xmlSeqEls] at ha <;> obtain ⟨_, _, rfl⟩ := ha <;> rfl

theorem xmlEncodeV_findall (seq : JVal) (ty sq cr au : String) (mn mx : Int)
    (now : String) :
    (xmlEncodeV seq ty sq cr au mn mx now).findallPath "sequence" "el"
      = xmlSeqEls seq := by
  simp [xmlEncodeV, XElem.findallPath, XElem.childrenNamed, XElem.children,
    XElem.tag, mkTextEl]
  intro a ha
  exact xmlSeqEls_tag_mem seq a ha

theorem xmlValidate_encode (seq : JVal) (ty sq cr au : String) (mn mx : Int)
    (now : String) (hseq : xmlSeqEls seq ≠ []) (hty : ty ≠ "") (hsq : sq ≠ "")
    (hcr : cr ≠ "") (hau : au ≠ "") (hnow : now ≠ "") :
    xmlValidate (xmlEncodeV seq ty sq cr au mn mx now) = .ok true := by
  simp [xmlValidate, xmlEncodeV, xmlCheckEl, xmlCheckTxt, XElem.find1,
    XElem.findPath, XElem.childrenNamed, XElem.children, XElem.tag, XElem.text,
    mkTextEl, truthyEl, truthyTxt, hseq, hty, hsq, hcr, hau, hnow,
    natStr_ne_empty, intStr_ne_empty]

theorem elsToArr_encode (xs : List Int) :
    elsToArr (xs.map (fun x => XElem.mk "el" [] (some (intStr x)) []))
      = .ok (xs.map JVal.jInt) := by
  induction xs with
  | nil => rfl
  | cons x r ih =>
    simp [elsToArr, elToInt, XElem.text, parseIntStr_intStr, ih]

theorem xmlSeqEls_arr (xs : List Int) :
    xmlSeqEls (.jArr (xs.map JVal.jInt))
      = xs.map (fun x => XElem.mk "el" [] (some (intStr x)) []) := by
  induction xs with
  | nil => rfl
  | cons y r ih =>
    simp only [xmlSeqEls, List.map_cons] at ih ⊢
    rw [← ih]
    rfl

theorem xmlDecode_encode_list (xs : List Int) (ty sq cr au : String)
    (mn mx : Int) (now : String) (hxs : xs ≠ []) (hty : ty ≠ "")
    (hty2 : ty ≠ "dict") (hsq : sq ≠ "") (hcr : cr ≠ "") (hau : au ≠ "")
    (hnow : now ≠ "") :
    xmlDecode (some (xmlEncodeV (.jArr (xs.map JVal.jInt)) ty sq cr au mn mx now))
      = .ok (some (jsonEncodeV (.jArr (xs.map JVal.jInt)) ty sq cr au mn mx now)) := by
  have hseq : xmlSeqEls (.jArr (xs.map JVal.jInt)) ≠ [] := by
    cases xs with
    | nil => exact absurd rfl hxs
    | cons y r => simp [xmlSeqEls]
  have hval := xmlValidate_encode (.jArr (xs.map JVal.jInt)) ty sq cr au mn mx
    now hseq hty hsq hcr hau hnow
  have hall := xmlEncodeV_findall (.jArr (xs.map JVal.jInt)) ty sq cr au mn mx now
  simp only [xmlDecode, hval]
  rw [hall, xmlSeqEls_arr, elsToArr_encode]
  simp [xmlEncodeV, XElem.findPath, XElem.childrenNamed, XElem.children,
    XElem.tag, XElem.text, mkTextEl, metaTextJ, metaInt, elToInt,
    parseIntStr_intStr, hty2, jsonEncodeV, jLen]
theorem dictInsert_notmem (m : List (String × Int)) (k : String) (v : Int)
    (h : ∀ kv ∈ m, kv.1 ≠ k) : dictInsert m k v = m ++ [(k, v)] := by
  have hany : m.any (fun kv => kv.1 == k) = false := by
    rw [List.any_eq_false]
    intro kv hkv
    simp [h kv hkv]
  unfold dictInsert
  rw [hany]
  simp

theorem elsToDict_encode (kvs : List (String × Int)) :
    ∀ acc : List (String × Int),
    (∀ kv ∈ kvs, kv.1 = intStr kv.2) →
    (∀ kv ∈ kvs, ∀ kv2 ∈ acc, kv2.1 ≠ kv.1) →
    ((kvs.map Prod.fst).Nodup) →
    elsToDict (kvs.map (fun kv => XElem.mk "el" [("key", kv.1)] (some kv.1) [])) acc
      = .ok (acc ++ kvs) := by
  induction kvs with
  | nil =>
    intro acc _ _ _
    simp [elsToDict]
  | cons kv rest ih =>
    intro acc hkeys hdisj hnodup
    have hk : kv.1 = intStr kv.2 := hkeys kv (by simp)
    have hparse : parseIntStr kv.1 = some kv.2 := by
      rw [hk]
      exact parseIntStr_intStr kv.2
    simp only [List.map_cons, elsToDict, elKey, XElem.attrs, elToInt,
      XElem.text, hparse, List.find?, beq_self_eq_true]
    rw [dictInsert_notmem acc kv.1 kv.2 (fun kv2 h2 => hdisj kv (by simp) kv2 h2)]
    have hrec := ih (acc ++ [(kv.1, kv.2)])
      (fun kv2 h2 => hkeys kv2 (List.mem_cons_of_mem _ h2))
      (fun kv2 h2 kv3 h3 => by
        rcases List.mem_append.mp h3 with h4 | h4
        · exact hdisj kv2 (List.mem_cons_of_mem _ h2) kv3 h4
        · simp at h4
          rw [h4]
          simp only [List.map_cons, List.nodup_cons] at hnodup
          intro hcontra
          exact hnodup.1 (hcontra ▸ List.mem_map.mpr ⟨kv2, h2, rfl⟩))
      (by simp only [List.map_cons, List.nodup_cons] at hnodup; exact hnodup.2)
    rw [hrec]
    simp
theorem xmlSeqEls_obj (kvs : List (String × Int)) :
    xmlSeqEls (.jObj (kvs.map (fun kv => (kv.1, JVal.jInt kv.2))))
      = kvs.map (fun kv => XElem.mk "el" [("key", kv.1)] (some kv.1) []) := by
  induction kvs with
  | nil => rfl
  | cons y r ih =>
    simp only [xmlSeqEls, List.map_cons] at ih ⊢
    rw [← ih]

theorem xmlDecode_encode_dict (kvs : List (String × Int)) (sq cr au : String)
    (mn mx : Int) (now : String) (hkvs : kvs ≠ [])
    (hkeys : ∀ kv ∈ kvs, kv.1 = intStr kv.2)
    (hnodup : (kvs.map Prod.fst).Nodup)
    (hsq : sq ≠ "") (hcr : cr ≠ "") (hau : au ≠ "") (hnow : now ≠ "") :
    xmlDecode (some (xmlEncodeV
        (.jObj (kvs.map (fun kv => (kv.1, JVal.jInt kv.2))))
        "dict" sq cr au mn mx now))
      = .ok (some (jsonEncodeV
        (.jObj (kvs.map (fun kv => (kv.1, JVal.jInt kv.2))))
        "dict" sq cr au mn mx now)) := by
  have hseq : xmlSeqEls (.jObj (kvs.map (fun kv => (kv.1, JVal.jInt kv.2)))) ≠ [] := by
    cases kvs with
    | nil => exact absurd rfl hkvs
    | cons y r => simp [xmlSeqEls]
  have hval := xmlValidate_encode
    (.jObj (kvs.map (fun kv => (kv.1, JVal.jInt kv.2)))) "dict" sq cr au mn mx
    now hseq (by simp) hsq hcr hau hnow
  have hall := xmlEncodeV_findall
    (.jObj (kvs.map (fun kv => (kv.1, JVal.jInt kv.2)))) "dict" sq cr au mn mx now
  have hdict := elsToDict_encode kvs [] hkeys (by simp) hnodup
  simp only [xmlDecode, hval]
  rw [hall, xmlSeqEls_obj, hdict]
  simp [xmlEncodeV, XElem.findPath, XElem.childrenNamed, XElem.children,
    XElem.tag, XElem.text, mkTextEl, metaTextJ, metaInt, elToInt,
    parseIntStr_intStr, jsonEncodeV, jLen]
theorem setTarget_setTarget (fs : FS) (fmt : String) (f1 f2 : SFile) :
    (fs.setTarget fmt f1).setTarget fmt f2 = fs.setTarget fmt f2 := by
  cases fs
  by_cases h : (fmt == "xml") = true <;> simp [FS.setTarget, h]

theorem generate_sequence_reuse (g : GKind) (maxLen : Int) (fs0 : FS)
    (now fmt : String) (start0 : Int) (stop0 : Option Int) (step maxEl : Int)
    (s : JVal) (hfmt : fmtOk fmt = true)
    (hmax : maxInRange start0 stop0 step = .ok maxEl)
    (hreuse : tryReuse g fmt "range"
        ((((removeUnsupported fs0 fmt).target fmt).getD ⟨now, none⟩).fdata)
        (normStart start0 stop0) maxEl step = .ok (some s)) :
    generate_sequence g maxLen fs0 now fmt start0 stop0 step =
      ((removeUnsupported fs0 fmt).setTarget fmt
        { ((removeUnsupported fs0 fmt).target fmt).getD ⟨now, none⟩ with
          fdata := some (encodeFile fmt s (seqTypeName g) "range"
            (((removeUnsupported fs0 fmt).target fmt).getD ⟨now, none⟩).ctime
            (genName g) (normStart start0 stop0) maxEl now) }, none) := by
  simp only [generate_sequence, hfmt, hmax, hreuse, Bool.not_true, Bool.false_eq_true,
    if_false]
  rw [setTarget_setTarget]

theorem generate_sequence_miss_error (g : GKind) (maxLen : Int) (fs0 : FS)
    (now fmt : String) (start0 : Int) (stop0 : Option Int) (step maxEl : Int)
    (e : Err) (hfmt : fmtOk fmt = true)
    (hmax : maxInRange start0 stop0 step = .ok maxEl)
    (hreuse : tryReuse g fmt "range"
        ((((removeUnsupported fs0 fmt).target fmt).getD ⟨now, none⟩).fdata)
        (normStart start0 stop0) maxEl step = .ok none)
    (hcreate : createSeq g maxLen (normStart start0 stop0)
        (normStop start0 stop0) step = .error e) :
    generate_sequence g maxLen fs0 now fmt start0 stop0 step =
      ((removeUnsupported fs0 fmt).setTarget fmt
        (((removeUnsupported fs0 fmt).target fmt).getD ⟨now, none⟩), some e) := by
  simp only [generate_sequence, hfmt, hmax, hreuse, hcreate, Bool.not_true,
    Bool.false_eq_true, if_false]
theorem generate_fibonacci_fresh (g : GKind) (maxLen : Int) (fs0 : FS)
    (now fmt : String) (first second length : Int) (mx : Int)
    (hg : g = .glist ∨ g = .gtuple)
    (hlen : length < maxLen) (hfmt : fmtOk fmt = true)
    (hreuse : tryReuse g fmt "fibonacci"
        ((((removeUnsupported fs0 fmt).target fmt).getD ⟨now, none⟩).fdata)
        first (pyFib first second (length - 1)) 0 = .ok none)
    (hmx : pyMaxJ (.jArr ((fibSeqList first second length).map JVal.jInt))
        = .ok mx) :
    generate_fibonacci g maxLen fs0 now fmt first second length =
      ((removeUnsupported fs0 fmt).setTarget fmt
        { ((removeUnsupported fs0 fmt).target fmt).getD ⟨now, none⟩ with
          fdata := some (encodeFile fmt
            (.jArr ((fibSeqList first second length).map JVal.jInt))
            (seqTypeName g) "fibonacci"
            (((removeUnsupported fs0 fmt).target fmt).getD ⟨now, none⟩).ctime
            (genName g) first mx now) }, none) := by
  rcases hg with rfl | rfl <;>
  · simp only [generate_fibonacci, hfmt, hreuse, hmx, Bool.not_true,
      Bool.false_eq_true, if_false]
    rw [if_neg (by simp [hlen]), setTarget_setTarget]

theorem generate_fibonacci_rejected (g : GKind) (maxLen : Int) (fs0 : FS)
    (now fmt : String) (first second length : Int)
    (hg : g = .gset ∨ g = .gdict)
    (hlen : length < maxLen) (hfmt : fmtOk fmt = true)
    (hreuse : tryReuse g fmt "fibonacci"
        ((((removeUnsupported fs0 fmt).target fmt).getD ⟨now, none⟩).fdata)
        first (pyFib first second (length - 1)) 0 = .ok none) :
    generate_fibonacci g maxLen fs0 now fmt first second length =
      ((removeUnsupported fs0 fmt).setTarget fmt
        (((removeUnsupported fs0 fmt).target fmt).getD ⟨now, none⟩),
       some .fibonacci) := by
  rcases hg with rfl | rfl <;>
  · simp only [generate_fibonacci, hfmt, hreuse, Bool.not_true,
      Bool.false_eq_true, if_false]
    rw [if_neg (by simp [hlen])]
theorem createSeq_too_long (g : GKind) (maxLen start stop step : Int)
    (hstep : 1 ≤ step) (hss : start ≤ stop)
    (hcount : maxLen ≤ rangeCount start stop step) :
    createSeq g maxLen start stop step = .error (.invalidSeqLength maxLen) := by
  unfold createSeq customRange
  rw [if_neg (show ¬ step < 0 by omega), if_neg (show ¬ start > stop by omega),
    if_neg (show ¬ step = 0 by omega), if_neg (show ¬ rangeCount start stop step < maxLen by omega)]

theorem checkEqualJ_encode_fib (g : GKind) (seq : JVal) (ty sq cr au : String)
    (mn mx : Int) (now : String) (min_el max_el step : Int) :
    checkEqualJ g "fibonacci" (some (jsonEncodeV seq ty sq cr au mn mx now))
        min_el max_el step
      = .ok (typeCheckStr g ty && (sq == "fibonacci") &&
             ((mx == max_el) && (mn == min_el)) && (step == 0)) := by
  simp [checkEqualJ, jsonEncodeV, jIndex, List.find?, typeCheckJ, jEqStrVal,
    jEqInt]

theorem checkEqualJ_encode_range (g : GKind) (seq : JVal) (ty sq cr au : String)
    (mn mx : Int) (now : String) (min_el max_el step : Int)
    (hlen : jLen seq ≠ 1) :
    checkEqualJ g "range" (some (jsonEncodeV seq ty sq cr au mn mx now))
        min_el max_el step
      = .ok (typeCheckStr g ty && (sq == "range") &&
             ((mx == max_el) && (mn == min_el)) &&
             (step == Int.fdiv (mx - mn) (Int.ofNat (jLen seq) - 1))) := by
  simp [checkEqualJ, jsonEncodeV, jIndex, List.find?, typeCheckJ, jEqStrVal,
    jEqInt, pyFloorDiv, sub_eq_zero, hlen]

theorem checkEqualJ_encode_range_len1 (g : GKind) (seq : JVal)
    (ty sq cr au : String) (mn mx : Int) (now : String)
    (min_el max_el step : Int) (hlen : jLen seq = 1) :
    checkEqualJ g "range" (some (jsonEncodeV seq ty sq cr au mn mx now))
        min_el max_el step = .error .zeroDiv := by
  simp [checkEqualJ, jsonEncodeV, jIndex, List.find?, typeCheckJ, jEqStrVal,
    jEqInt, pyFloorDiv, sub_eq_zero, hlen]
theorem decodeFile_encodeFile_arr (fmt : String)
    (hfmt : fmt = "json" ∨ fmt = "xml") (xs : List Int) (ty sq cr au : String)
    (mn mx : Int) (now : String) (hxs : xs ≠ []) (hty : ty ≠ "")
    (hty2 : ty ≠ "dict") (hsq : sq ≠ "") (hcr : cr ≠ "") (hau : au ≠ "")
    (hnow : now ≠ "") (hmx : mx ≠ 0) :
    decodeFile fmt (encodeFile fmt (.jArr (xs.map JVal.jInt)) ty sq cr au mn mx now)
      = .ok (some (jsonEncodeV (.jArr (xs.map JVal.jInt)) ty sq cr au mn mx now)) := by
  rcases hfmt with rfl | rfl
  · simp only [decodeFile, encodeFile]
    simp only [show (("json" == "xml") = false) from rfl, Bool.false_eq_true,
      if_false]
    apply jsonDecode_encode
    · simp [JVal.truthy, hxs]
    · exact hty
    · exact hsq
    · simp [jLen, hxs]
    · exact hau
    · exact hmx
  · simp only [decodeFile, encodeFile]
    simp only [show (("xml" == "xml") = true) from rfl, if_true]
    exact xmlDecode_encode_list xs ty sq cr au mn mx now hxs hty hty2 hsq hcr
      hau hnow

theorem removeUnsupported_xml (fs : FS) :
    (removeUnsupported fs "xml").jsonF = none := by
  unfold removeUnsupported
  by_cases h : fs.jsonF.isSome
  · simp [h]
  · simp [h, Option.not_isSome_iff_eq_none.mp h]

theorem removeUnsupported_json (fs : FS) :
    (removeUnsupported fs "json").xmlF = none := by
  unfold removeUnsupported
  by_cases h2 : fs.xmlF.isSome
  · simp [h2]
  · simp [h2, Option.not_isSome_iff_eq_none.mp h2]

theorem setTarget_xml_jsonF (fs : FS) (f : SFile) :
    (fs.setTarget "xml" f).jsonF = fs.jsonF := by
  simp [FS.setTarget]

theorem setTarget_json_xmlF (fs : FS) (f : SFile) :
    (fs.setTarget "json" f).xmlF = fs.xmlF := by
  simp [FS.setTarget]
theorem generate_sequence_xml_jsonF (g : GKind) (maxLen : Int) (fs : FS)
    (now : String) (a : Int) (b : Option Int) (c : Int) :
    ((generate_sequence g maxLen fs now "xml" a b c).1).jsonF = none := by
  unfold generate_sequence
  dsimp only
  repeat' split
  all_goals simp [setTarget_xml_jsonF, removeUnsupported_xml]

theorem generate_sequence_json_xmlF (g : GKind) (maxLen : Int) (fs : FS)
    (now : String) (a : Int) (b : Option Int) (c : Int) :
    ((generate_sequence g maxLen fs now "json" a b c).1).xmlF = none := by
  unfold generate_sequence
  dsimp only
  repeat' split
  all_goals simp [setTarget_json_xmlF, removeUnsupported_json]

theorem generate_fibonacci_xml_jsonF (g : GKind) (maxLen : Int) (fs : FS)
    (now : String) (a b c : Int) :
    ((generate_fibonacci g maxLen fs now "xml" a b c).1).jsonF = none := by
  unfold generate_fibonacci
  dsimp only
  repeat' split
  all_goals simp [setTarget_xml_jsonF, removeUnsupported_xml]

theorem generate_fibonacci_json_xmlF (g : GKind) (maxLen : Int) (fs : FS)
    (now : String) (a b c : Int) :
    ((generate_fibonacci g maxLen fs now "json" a b c).1).xmlF = none := by
  unfold generate_fibonacci
  dsimp only
  repeat' split
  all_goals simp [setTarget_json_xmlF, removeUnsupported_json]
theorem xmlCheckEl_cases (o : Option XElem) (k : Unit → Except Err Bool) :
    xmlCheckEl o k = k () ∨ xmlCheckEl o k = .ok false := by
  unfold xmlCheckEl
  by_cases h : truthyEl o = true <;> simp [h]

theorem xmlCheckTxt_cases (o : Option XElem) (k : Unit → Except Err Bool)
    (h : o.isSome) :
    xmlCheckTxt o k = k () ∨ xmlCheckTxt o k = .ok false := by
  cases o with
  | none => simp at h
  | some e =>
    unfold xmlCheckTxt
    by_cases ht : truthyTxt e.text = true <;> simp [ht]

/-- The empty sequence each generator's `get_sequence` yields when
neither file is non-empty: the base class returns the empty list, and
the tuple/set wrappers coerce it; the dict generator has no wrapper, so
its result is also the empty LIST. -/
def emptyShape : GKind → PyVal
  | .glist => .ofJ (.jArr [])
  | .gtuple => .pTuple []
  | .gset => .pSet []
  | .gdict => .ofJ (.jArr [])

theorem shapeCoerce_empty (g : GKind) :
    shapeCoerce g (.jArr []) = .ok (emptyShape g) := by
  cases g <;> rfl

/-! ### The SequenceRecord data model of the specification -/

/-- The two sequence shapes a record can hold (spec section 3). -/
inductive SeqData where
  | ofList (xs : List Int)
  | ofMap (kvs : List (String × Int))

/-- The in-memory value the codecs see for a record's sequence. -/
def SeqData.toJ : SeqData → JVal
  | .ofList xs => .jArr (xs.map JVal.jInt)
  | .ofMap kvs => .jObj (kvs.map (fun kv => (kv.1, JVal.jInt kv.2)))

def SeqData.elems : SeqData → List Int
  | .ofList xs => xs
  | .ofMap kvs => kvs.map (fun kv => kv.2)

def SeqData.isEmptySeq : SeqData → Bool
  | .ofList xs => xs.isEmpty
  | .ofMap kvs => kvs.isEmpty

/-- An in-memory SequenceRecord as described by the specification:
sequence data plus the metadata the caller controls (`len` and `el_type`
are derived at encode time, `date_modified` is refreshed). -/
structure SRecord where
  sdata : SeqData
  rtype : String
  seqType : String
  created : String
  author : String
  minEl : Int
  maxEl : Int

/-- Modelled from the spec (section 3, data model): a well-formed
SequenceRecord. The container tag is one of the four families, the
generation method one of the two tags, timestamps and author are
non-empty strings, the mapping shape is used exactly for `dict`-typed
records, mapping keys are the decimal string of their value (hence
distinct keys for distinct values), and `min`/`max` bound the
elements. -/
def SeqData.isMapB : SeqData → Bool
  | .ofList _ => false
  | .ofMap _ => true

/-- Key discipline of a mapping-shaped sequence: each key is the decimal
string of its value, and keys are distinct. -/
def mapKeysOk : SeqData → Prop
  | .ofList _ => True
  | .ofMap kvs => (∀ kv ∈ kvs, kv.1 = intStr kv.2) ∧ (kvs.map Prod.fst).Nodup

instance (s : SeqData) : Decidable (mapKeysOk s) := by
  cases s with
  | ofList xs => exact isTrue trivial
  | ofMap kvs => exact inferInstanceAs (Decidable (_ ∧ _))

def ValidRecord (r : SRecord) : Prop :=
  r.rtype ∈ (["list", "tuple", "set", "dict"] : List String) ∧
  r.seqType ∈ (["range", "fibonacci"] : List String) ∧
  r.created ≠ "" ∧ r.author ≠ "" ∧
  ((r.rtype = "dict") ↔ r.sdata.isMapB = true) ∧
  mapKeysOk r.sdata ∧
  (∀ x ∈ r.sdata.elems, r.minEl ≤ x ∧ x ≤ r.maxEl)

/-- A record as serialized by the JSON codec. -/
def encodeRecJson (r : SRecord) (now : String) : JVal :=
  jsonEncodeV r.sdata.toJ r.rtype r.seqType r.created r.author r.minEl r.maxEl now

/-- A record as serialized by the XML codec. -/
def encodeRecXml (r : SRecord) (now : String) : XElem :=
  xmlEncodeV r.sdata.toJ r.rtype r.seqType r.created r.author r.minEl r.maxEl now

theorem target_setTarget (fs : FS) (fmt : String) (f : SFile) :
    (fs.setTarget fmt f).target fmt = some f := by
  by_cases h : (fmt == "xml") = true <;> simp [FS.setTarget, FS.target, h]

/-! ## The claims -/

/-- C9 (amended): when neither format file is non-empty, `get_sequence`
returns the empty sequence produced by the base class — the empty LIST —
coerced by the subclass wrappers: the list generator yields `[]`, the
tuple generator `()`, the set generator `set()`, but the dict generator,
which does not override `get_sequence`, also yields the empty LIST `[]`
rather than an empty mapping. The state is unchanged. -/
theorem c9_empty_state_amended (g : GKind) (maxLen : Int) (fs : FS)
    (hx : nonEmptyF fs.xmlF = false) (hj : nonEmptyF fs.jsonF = false) :
    get_sequence g maxLen fs = (fs, .ok (emptyShape g)) ∧
    emptyShape .glist = .ofJ (.jArr []) ∧ emptyShape .gtuple = .pTuple [] ∧
    emptyShape .gset = .pSet [] ∧ emptyShape .gdict = .ofJ (.jArr []) := by
  refine ⟨?_, rfl, rfl, rfl, rfl⟩
  unfold get_sequence
  rw [hx, hj]
  simp [shapeCoerce_empty]

/-- C9 witness: the amended theorem applied to the dict generator on the
empty state. -/
theorem c9_empty_state_amended_witness :
    get_sequence .gdict 100 FS.empty = (FS.empty, .ok (emptyShape .gdict)) :=
  (c9_empty_state_amended .gdict 100 FS.empty rfl rfl).1

/-- C9 counterexample: on the empty state the mapping (dict) generator's
`get_sequence` returns the empty list `[]`, which is not an empty
mapping `{}` — refuting the claim that each generator gets its native
empty shape. -/
theorem c9_counterexample :
    (get_sequence .gdict 100 FS.empty).2 = .ok (.ofJ (.jArr [])) ∧
    (Except.ok (.ofJ (.jArr [])) : Except Err PyVal) ≠ .ok (.ofJ (.jObj [])) := by
  refine ⟨rfl, ?_⟩
  intro h
  injection h with h1
  injection h1 with h2
  exact JVal.noConfusion h2

/-- The record stored by `generate_sequence('json', 5, 6, 1)`: a single
element 5, `min = max = 5`, `len = 1`. -/
def c3Rec : JVal :=
  jsonEncodeV (.jArr [JVal.jInt 5]) "list" "range" "t1" "ListGenerator" 5 5 "t1"

/-- C3 counterexample: on a stored record with `len = 1` the equivalence
checker raises `ZeroDivisionError` instead of treating the implied step
as `0`; end-to-end, the second identical call
`generate_sequence('json', 5, 6, 1)` raises, where the claim says the
check simply compares steps. -/
theorem c3_counterexample :
    (generate_sequence .glist 100
        ((generate_sequence .glist 100 FS.empty "t1" "json" 5 (some 6) 1).1)
        "t2" "json" 5 (some 6) 1).2 = some .zeroDiv ∧
    checkEqualJ .glist "range" (some c3Rec) 5 5 1 = .error .zeroDiv := by
  exact ⟨rfl, rfl⟩

/-- C3 (amended): for a well-shaped stored record with `len ≠ 1` the
checker computes the implied step as `(max − min) // (len − 1)` (floor
division) and succeeds exactly when the container type, `seq_type`,
`min`, `max` and the implied step all match; when `len = 1` it raises
`ZeroDivisionError` instead of computing 0. -/
theorem c3_implied_step_amended (g : GKind) (seq : JVal)
    (ty sq cr au : String) (mn mx : Int) (now : String)
    (min_el max_el step : Int) :
    (jLen seq ≠ 1 →
      checkEqualJ g "range" (some (jsonEncodeV seq ty sq cr au mn mx now))
          min_el max_el step
        = .ok (typeCheckStr g ty && (sq == "range") &&
               ((mx == max_el) && (mn == min_el)) &&
               (step == Int.fdiv (mx - mn) (Int.ofNat (jLen seq) - 1)))) ∧
    (jLen seq = 1 →
      checkEqualJ g "range" (some (jsonEncodeV seq ty sq cr au mn mx now))
          min_el max_el step = .error .zeroDiv) :=
  ⟨fun h => checkEqualJ_encode_range g seq ty sq cr au mn mx now
      min_el max_el step h,
   fun h => checkEqualJ_encode_range_len1 g seq ty sq cr au mn mx now
      min_el max_el step h⟩

/-- C3 witness: the amended theorem at two concrete records, one with
`len = 2` (check succeeds with implied step 3) and one with `len = 1`
(the checker raises). -/
theorem c3_implied_step_amended_witness :
    checkEqualJ .glist "range"
        (some (jsonEncodeV (.jArr [JVal.jInt 0, JVal.jInt 3])
          "list" "range" "c" "a" 0 3 "m")) 0 3 3 = .ok true ∧
    checkEqualJ .glist "range"
        (some (jsonEncodeV (.jArr [JVal.jInt 7])
          "list" "range" "c" "a" 7 7 "m")) 7 7 1 = .error .zeroDiv := by
  constructor
  · have h := (c3_implied_step_amended .glist (.jArr [JVal.jInt 0, JVal.jInt 3])
      "list" "range" "c" "a" 0 3 "m" 0 3 3).1 (by decide)
    rw [h]
    rfl
  · exact (c3_implied_step_amended .glist (.jArr [JVal.jInt 7])
      "list" "range" "c" "a" 7 7 "m" 7 7 1).2 rfl

/-- C5 counterexample: `generate_fibonacci` on a set generator with
maximum length 10 and `length = 50` fails with
`InvalidSequenceLength(10)` — the length guard runs BEFORE the
Fibonacci-incompatibility rejection, so the failure is not the
Fibonacci error the claim promises for every set/mapping call. -/
theorem c5_counterexample :
    (generate_fibonacci .gset 10 FS.empty "t" "json" 2 3 50).2
      = some (.invalidSeqLength 10) ∧
    some (Err.invalidSeqLength 10) ≠ some Err.fibonacci :=
  ⟨rfl, by decide⟩

/-- C5 (amended): on a set or dict generator, when the length is within
the bound and no reusable stored record exists (the read-and-check
prefix `tryReuse` misses — whether the target file is empty, absent, or
holds a record failing the equivalence check), `generate_fibonacci`
fails with the Fibonacci error and writes no content to the target file
(whose prior content is untouched; it is created empty if absent, and
the opposite-format file has already been removed); the same call
`generate_fibonacci('json', 2, 3, 5)` on a list generator succeeds and
stores exactly `[2, 3, 5, 8, 13]`. -/
theorem c5_fibonacci_rejection_amended (g : GKind) (maxLen : Int) (fs0 : FS)
    (now fmt : String) (first second length : Int)
    (hg : g = .gset ∨ g = .gdict) (hlen : length < maxLen)
    (hfmt : fmtOk fmt = true)
    (hreuse : tryReuse g fmt "fibonacci"
        ((((removeUnsupported fs0 fmt).target fmt).getD ⟨now, none⟩).fdata)
        first (pyFib first second (length - 1)) 0 = .ok none) :
    (generate_fibonacci g maxLen fs0 now fmt first second length =
      ((removeUnsupported fs0 fmt).setTarget fmt
        (((removeUnsupported fs0 fmt).target fmt).getD ⟨now, none⟩),
       some .fibonacci)) ∧
    ((((generate_fibonacci g maxLen fs0 now fmt first second length).1).target
        fmt) = some (((removeUnsupported fs0 fmt).target fmt).getD ⟨now, none⟩)) ∧
    generate_fibonacci .glist 100 FS.empty "t" "json" 2 3 5
      = (⟨some ⟨"t", some (.jv (jsonEncodeV
          (.jArr ([2, 3, 5, 8, 13].map JVal.jInt))
          "list" "fibonacci" "t" "ListGenerator" 2 13 "t"))⟩, none⟩, none) := by
  have hfull := generate_fibonacci_rejected g maxLen fs0 now fmt first second
    length hg hlen hfmt hreuse
  refine ⟨hfull, ?_, rfl⟩
  rw [hfull, target_setTarget]

/-- A state whose record-notation file holds a stored RANGE record: a
non-empty target that the Fibonacci equivalence check rejects
(`seq_type` mismatch), so a Fibonacci call misses the cache. -/
def c5RangeFS : FS :=
  ⟨some ⟨"t0", some (.jv (jsonEncodeV (.jArr ([0, 1].map JVal.jInt))
      "list" "range" "t0" "ListGenerator" 0 1 "t0"))⟩, none⟩

/-- C5 witness: the amended theorem applied to the set generator with
bound 10 and the call `(json, 2, 3, 5)` on a NON-empty target holding a
stored range record: the miss hypothesis is discharged by computing the
decode-and-check prefix, the call fails with the Fibonacci error, and
the stored record is left untouched. -/
theorem c5_fibonacci_rejection_amended_witness :
    generate_fibonacci .gset 10 c5RangeFS "t1" "json" 2 3 5
      = (c5RangeFS, some .fibonacci) :=
  (c5_fibonacci_rejection_amended .gset 10 c5RangeFS "t1" "json" 2 3 5
    (Or.inl rfl) (by decide) rfl rfl).1

def c7BadJson : JVal := .jArr [.jInt 1]

/-- A parsed JSON object whose metadata lacks both date fields but has
every field the JSON validator actually checks. -/
def c7NoDates : JVal := .jObj [("sequence", .jArr [.jInt 1]),
  ("metadata", .jObj [("type", .jStr "list"), ("seq_type", .jStr "range"),
    ("len", .jInt 1), ("el_type", .jStr "int"), ("author", .jStr "a"),
    ("min", .jInt 0), ("max", .jInt 1)])]

/-- A parsed XML tree with a non-empty sequence and metadata but no
`type` element. -/
def c7BadXml : XElem := .mk "data" [] none [
  .mk "sequence" [] none [.mk "el" [] (some "1") []],
  .mk "metadata" [] none [.mk "x" [] (some "y") []]]

/-- C7 counterexample: decode is not total and does not reject all
records with missing required fields — a syntactically valid JSON array
makes `decode` raise `AttributeError` (`.get` on a non-dict); a record
missing `date_created`/`date_modified` is returned, not absent; an XML
tree whose `metadata` lacks the `type` element makes `decode` raise
`AttributeError` (`.text` on `None`). -/
theorem c7_counterexample :
    jsonDecode (some c7BadJson) = .error .attrError ∧
    jsonDecode (some c7NoDates) = .ok (some c7NoDates) ∧
    (Except.ok (some c7NoDates) : Except Err (Option JVal)) ≠ .ok none ∧
    xmlDecode (some c7BadXml) = .error .attrError := by
  refine ⟨rfl, rfl, ?_, rfl⟩
  intro h
  injection h with h1
  exact Option.noConfusion h1

set_option maxHeartbeats 2000000 in
/-- C7 (amended): a parse failure is reported as absent without raising,
in both codecs; an input the validator rejects also yields absent
without raising; the JSON decoder returns a validated input verbatim
(so fields the validator skips — the dates — are not checked); and the
XML validator itself cannot raise when all eight metadata elements it
inspects are present. Decode CAN raise on parsed-but-ill-shaped input
(see the counterexample). -/
theorem c7_decode_amended :
    (jsonDecode none = .ok none ∧ xmlDecode none = .ok none) ∧
    (∀ v : JVal, jsonValidate v = .ok false → jsonDecode (some v) = .ok none) ∧
    (∀ v : JVal, jsonValidate v = .ok true → jsonDecode (some v) = .ok (some v)) ∧
    (∀ t : XElem, xmlValidate t = .ok false → xmlDecode (some t) = .ok none) ∧
    (∀ t : XElem,
      (t.findPath "metadata" "type").isSome = true →
      (t.findPath "metadata" "seq_type").isSome = true →
      (t.findPath "metadata" "len").isSome = true →
      (t.findPath "metadata" "el_type").isSome = true →
      (t.findPath "metadata" "max").isSome = true →
      (t.findPath "metadata" "date_created").isSome = true →
      (t.findPath "metadata" "date_modified").isSome = true →
      (t.findPath "metadata" "author").isSome = true →
      ∃ b, xmlValidate t = .ok b) := by
  refine ⟨⟨rfl, rfl⟩, ?_, ?_, ?_, ?_⟩
  · intro v h
    simp only [jsonDecode]
    rw [h]
  · intro v h
    simp only [jsonDecode]
    rw [h]
  · intro t h
    simp only [xmlDecode]
    rw [h]
  · intro t h1 h2 h3 h4 h5 h6 h7 h8
    obtain ⟨e1, he1⟩ := Option.isSome_iff_exists.mp h1
    obtain ⟨e2, he2⟩ := Option.isSome_iff_exists.mp h2
    obtain ⟨e3, he3⟩ := Option.isSome_iff_exists.mp h3
    obtain ⟨e4, he4⟩ := Option.isSome_iff_exists.mp h4
    obtain ⟨e5, he5⟩ := Option.isSome_iff_exists.mp h5
    obtain ⟨e6, he6⟩ := Option.isSome_iff_exists.mp h6
    obtain ⟨e7, he7⟩ := Option.isSome_iff_exists.mp h7
    obtain ⟨e8, he8⟩ := Option.isSome_iff_exists.mp h8
    simp only [xmlValidate, xmlCheckEl, xmlCheckTxt]
    rw [he1, he2, he3, he4, he5, he6, he7, he8]
    dsimp only
    split_ifs <;> exact ⟨_, rfl⟩

/-- C7 witness: the amended theorem's validation-failure components at a
concrete rejected input (an object with an empty sequence), and the
presence component at a tree carrying all eight checked elements. -/
theorem c7_decode_amended_witness :
    jsonDecode (some (.jObj [("sequence", .jArr [])])) = .ok none ∧
    (∃ b, xmlValidate (.mk "data" [] none [
      .mk "metadata" [] none [
        .mk "type" [] (some "list") [], .mk "seq_type" [] (some "range") [],
        .mk "len" [] (some "1") [], .mk "el_type" [] (some "int") [],
        .mk "max" [] (some "1") [], .mk "date_created" [] (some "c") [],
        .mk "date_modified" [] (some "m") [], .mk "author" [] (some "a") []]])
      = .ok b) := by
  constructor
  · exact c7_decode_amended.2.1 (.jObj [("sequence", .jArr [])]) rfl
  · exact c7_decode_amended.2.2.2.2 _ rfl rfl rfl rfl rfl rfl rfl rfl

/-- A state in which both format files are non-empty (only reachable by
external manipulation; the write paths preserve at-most-one-non-empty). -/
def c8BothFS : FS :=
  ⟨some ⟨"t", some (.jv (.jInt 0))⟩, some ⟨"t", some (.xv (.mk "data" [] none []))⟩⟩

/-- C8 counterexample: READING does not delete the opposite-format
file — with both files non-empty, `get_sequence` auto-detects the XML
file (so the read is in the markup format) yet leaves the JSON file
exactly as it was, refuting "creating or reading in format X deletes any
existing file of format Y". -/
theorem c8_counterexample :
    nonEmptyF c8BothFS.xmlF = true ∧
    (get_sequence .glist 100 c8BothFS).1.jsonF = c8BothFS.jsonF ∧
    c8BothFS.jsonF ≠ none := by
  refine ⟨rfl, rfl, ?_⟩
  intro h
  exact Option.noConfusion h

/-- C8 (amended): the WRITE entry points always delete the
opposite-format file — after any `generate_sequence` or
`generate_fibonacci` call in one format (even a failing one), the other
format's file does not exist — and in particular the two-call scenario
markup-then-mapping behaves as claimed; reading deletes nothing (see the
counterexample). -/
theorem c8_exclusivity_amended :
    (∀ (g : GKind) (maxLen : Int) (fs : FS) (now : String) (a : Int)
        (b : Option Int) (c : Int),
      ((generate_sequence g maxLen fs now "xml" a b c).1).jsonF = none ∧
      ((generate_sequence g maxLen fs now "json" a b c).1).xmlF = none) ∧
    (∀ (g : GKind) (maxLen : Int) (fs : FS) (now : String) (a b c : Int),
      ((generate_fibonacci g maxLen fs now "xml" a b c).1).jsonF = none ∧
      ((generate_fibonacci g maxLen fs now "json" a b c).1).xmlF = none) ∧
    (((generate_sequence .glist 100 FS.empty "t1" "xml" 0 (some 50) 1).1).jsonF
        = none ∧
     ((generate_sequence .glist 100
        ((generate_sequence .glist 100 FS.empty "t1" "xml" 0 (some 50) 1).1)
        "t2" "json" 0 (some 50) 1).1).xmlF = none) := by
  refine ⟨fun g m fs now a b c => ⟨?_, ?_⟩, fun g m fs now a b c => ⟨?_, ?_⟩, ?_, ?_⟩
  · exact generate_sequence_xml_jsonF g m fs now a b c
  · exact generate_sequence_json_xmlF g m fs now a b c
  · exact generate_fibonacci_xml_jsonF g m fs now a b c
  · exact generate_fibonacci_json_xmlF g m fs now a b c
  · exact generate_sequence_xml_jsonF .glist 100 FS.empty "t1" 0 (some 50) 1
  · exact generate_sequence_json_xmlF .glist 100 _ "t2" 0 (some 50) 1

theorem toJ_truthy (s : SeqData) (h : s.isEmptySeq = false) :
    s.toJ.truthy = true := by
  cases s with
  | ofList xs =>
    simp [SeqData.isEmptySeq, List.isEmpty_eq_false] at h
    simp [SeqData.toJ, JVal.truthy, h]
  | ofMap kvs =>
    simp [SeqData.isEmptySeq, List.isEmpty_eq_false] at h
    simp [SeqData.toJ, JVal.truthy, h]

theorem toJ_len_ne (s : SeqData) (h : s.isEmptySeq = false) :
    jLen s.toJ ≠ 0 := by
  cases s with
  | ofList xs =>
    simp [SeqData.isEmptySeq, List.isEmpty_eq_false] at h
    simp [SeqData.toJ, jLen, h]
  | ofMap kvs =>
    simp [SeqData.isEmptySeq, List.isEmpty_eq_false] at h
    simp [SeqData.toJ, jLen, h]

instance (r : SRecord) : Decidable (ValidRecord r) := by
  unfold ValidRecord
  infer_instance

/-- A valid record with an empty sequence. -/
def c2EmptyRec : SRecord := ⟨.ofList [], "list", "range", "c", "a", 0, 0⟩

/-- A valid one-element record whose `max` is 0. -/
def c2ZeroRec : SRecord := ⟨.ofList [0], "list", "range", "c", "a", 0, 0⟩

/-- C2 counterexample: the round-trip law fails on valid records — an
empty-sequence record decodes to absent in BOTH formats (the validators
treat an empty sequence as falsy), and a record whose metadata `max` is
0 decodes to absent in the record-notation (JSON) format (0 is falsy). -/
theorem c2_counterexample :
    ValidRecord c2EmptyRec ∧ ValidRecord c2ZeroRec ∧
    jsonDecode (some (encodeRecJson c2EmptyRec "t")) = .ok none ∧
    xmlDecode (some (encodeRecXml c2EmptyRec "t")) = .ok none ∧
    jsonDecode (some (encodeRecJson c2ZeroRec "t")) = .ok none := by
  exact ⟨by decide, by decide, rfl, rfl, rfl⟩

/-- C2 (amended): for every valid record whose sequence is non-empty and
whose `max` is non-zero, encoded at a non-empty timestamp, decode after
encode reproduces the record with a refreshed `date_modified` in both
formats, and the two codecs are format-symmetric: the XML-decoded value
is exactly the JSON encoding of the same record at the same timestamp
(so re-encoding it in either format yields identical results). -/
theorem c2_roundtrip_amended (r : SRecord) (now : String)
    (hv : ValidRecord r) (hne : r.sdata.isEmptySeq = false)
    (hnow : now ≠ "") (hmx : r.maxEl ≠ 0) :
    jsonDecode (some (encodeRecJson r now)) = .ok (some (encodeRecJson r now)) ∧
    xmlDecode (some (encodeRecXml r now)) = .ok (some (encodeRecJson r now)) := by
  obtain ⟨sdata, rtype, seqType, created, author, minEl, maxEl⟩ := r
  obtain ⟨hty4, hsq2, hcr, hau, hiff, hkeys, _⟩ := hv
  simp only at hty4 hsq2 hcr hau hiff hkeys hne hmx ⊢
  have hty : rtype ≠ "" := by
    simp at hty4
    rcases hty4 with h | h | h | h <;> subst h <;> decide
  have hsqne : seqType ≠ "" := by
    simp at hsq2
    rcases hsq2 with h | h <;> subst h <;> decide
  constructor
  · exact jsonDecode_encode _ _ _ _ _ _ _ _ (toJ_truthy _ hne) hty hsqne
      (toJ_len_ne _ hne) hau hmx
  · cases sdata with
    | ofList xs =>
      have htyd : rtype ≠ "dict" := by
        intro h
        have := hiff.mp h
        simp [SeqData.isMapB] at this
      have hxs : xs ≠ [] := by
        simpa [SeqData.isEmptySeq, List.isEmpty_eq_false] using hne
      exact xmlDecode_encode_list xs rtype seqType created author minEl maxEl
        now hxs hty htyd hsqne hcr hau hnow
    | ofMap kvs =>
      have htyd : rtype = "dict" := hiff.mpr (by simp [SeqData.isMapB])
      subst htyd
      have hkvs : kvs ≠ [] := by
        simpa [SeqData.isEmptySeq, List.isEmpty_eq_false] using hne
      obtain ⟨hk1, hk2⟩ := hkeys
      exact xmlDecode_encode_dict kvs seqType created author minEl maxEl now
        hkvs hk1 hk2 hsqne hcr hau hnow

/-- C2 witness: the amended round-trip law at a concrete valid list
record and at a concrete valid dict record. -/
theorem c2_roundtrip_amended_witness :
    (jsonDecode (some (encodeRecJson ⟨.ofList [1, 2], "list", "range", "c", "a", 1, 2⟩ "m"))
      = .ok (some (encodeRecJson ⟨.ofList [1, 2], "list", "range", "c", "a", 1, 2⟩ "m")) ∧
     xmlDecode (some (encodeRecXml ⟨.ofList [1, 2], "list", "range", "c", "a", 1, 2⟩ "m"))
      = .ok (some (encodeRecJson ⟨.ofList [1, 2], "list", "range", "c", "a", 1, 2⟩ "m"))) ∧
    (jsonDecode (some (encodeRecJson ⟨.ofMap [("7", 7)], "dict", "range", "c", "a", 7, 7⟩ "m"))
      = .ok (some (encodeRecJson ⟨.ofMap [("7", 7)], "dict", "range", "c", "a", 7, 7⟩ "m")) ∧
     xmlDecode (some (encodeRecXml ⟨.ofMap [("7", 7)], "dict", "range", "c", "a", 7, 7⟩ "m"))
      = .ok (some (encodeRecJson ⟨.ofMap [("7", 7)], "dict", "range", "c", "a", 7, 7⟩ "m"))) := by
  constructor
  · exact c2_roundtrip_amended ⟨.ofList [1, 2], "list", "range", "c", "a", 1, 2⟩
      "m" (by decide) rfl (by decide) (by decide)
  · exact c2_roundtrip_amended ⟨.ofMap [("7", 7)], "dict", "range", "c", "a", 7, 7⟩
      "m" (by decide) rfl (by decide) (by decide)

/-- The sequence `generate_sequence(fmt, 68, 121, 3)` produces. -/
def c1SeqJ : JVal := .jArr
  ([68, 71, 74, 77, 80, 83, 86, 89, 92, 95, 98, 101, 104, 107, 110, 113,
    116, 119].map JVal.jInt)

/-- C1 (confirmed): whenever the target file decodes to a record passing
all five equivalence conditions (`tryReuse` succeeds, extracting the
stored sequence `s`), `generate_sequence` writes back exactly `s` — the
stored sequence, not a recomputation — with `date_created` equal to the
file's creation time; and concretely, two consecutive calls
`generateSequence('mapping', 68, 121, 3)` store identical sequence
content and the second call's `date_created` equals the first's (`t1`). -/
theorem c1_cache_hit :
    (∀ (g : GKind) (maxLen : Int) (fs0 : FS) (now fmt : String)
        (start0 : Int) (stop0 : Option Int) (step maxEl : Int) (s : JVal),
      fmtOk fmt = true →
      maxInRange start0 stop0 step = .ok maxEl →
      tryReuse g fmt "range"
          ((((removeUnsupported fs0 fmt).target fmt).getD ⟨now, none⟩).fdata)
          (normStart start0 stop0) maxEl step = .ok (some s) →
      generate_sequence g maxLen fs0 now fmt start0 stop0 step =
        ((removeUnsupported fs0 fmt).setTarget fmt
          { ((removeUnsupported fs0 fmt).target fmt).getD ⟨now, none⟩ with
            fdata := some (encodeFile fmt s (seqTypeName g) "range"
              (((removeUnsupported fs0 fmt).target fmt).getD ⟨now, none⟩).ctime
              (genName g) (normStart start0 stop0) maxEl now) }, none)) ∧
    (generate_sequence .glist 100 FS.empty "t1" "json" 68 (some 121) 3
        = (⟨some ⟨"t1", some (.jv (jsonEncodeV c1SeqJ "list" "range" "t1"
            "ListGenerator" 68 119 "t1"))⟩, none⟩, none) ∧
     generate_sequence .glist 100
        ⟨some ⟨"t1", some (.jv (jsonEncodeV c1SeqJ "list" "range" "t1"
            "ListGenerator" 68 119 "t1"))⟩, none⟩
        "t2" "json" 68 (some 121) 3
        = (⟨some ⟨"t1", some (.jv (jsonEncodeV c1SeqJ "list" "range" "t1"
            "ListGenerator" 68 119 "t2"))⟩, none⟩, none)) := by
  refine ⟨?_, rfl, rfl⟩
  intro g maxLen fs0 now fmt start0 stop0 step maxEl s hfmt hmax hreuse
  exact generate_sequence_reuse g maxLen fs0 now fmt start0 stop0 step maxEl s
    hfmt hmax hreuse

/-- C1 witness: the cache-hit theorem applied to the concrete state left
by the first `(json, 68, 121, 3)` call. -/
theorem c1_cache_hit_witness :
    generate_sequence .glist 100
        ⟨some ⟨"t1", some (.jv (jsonEncodeV c1SeqJ "list" "range" "t1"
            "ListGenerator" 68 119 "t1"))⟩, none⟩
        "t2" "json" 68 (some 121) 3
      = (⟨some ⟨"t1", some (.jv (jsonEncodeV c1SeqJ "list" "range" "t1"
          "ListGenerator" 68 119 "t2"))⟩, none⟩, none) :=
  c1_cache_hit.1 .glist 100
    ⟨some ⟨"t1", some (.jv (jsonEncodeV c1SeqJ "list" "range" "t1"
        "ListGenerator" 68 119 "t1"))⟩, none⟩
    "t2" "json" 68 (some 121) 3 119 c1SeqJ rfl rfl rfl

/-- C4 (confirmed): `generate_sequence(json, 68, 121, 3)` on a list
generator stores exactly `[68, 71, ..., 119]` with metadata
`min = 68`, `max = 119` (and derived `len = 18`); and in general, for
`step ≥ 1` and `start < stop`, `__max_in_range` returns
`(stop − 1) − ((stop − 1) − start) mod step`, which is attained by the
generated range and bounds every element of it. -/
theorem c4_range_boundary :
    (generate_sequence .glist 100 FS.empty "t" "json" 68 (some 121) 3
      = (⟨some ⟨"t", some (.jv (jsonEncodeV c1SeqJ
          "list" "range" "t" "ListGenerator" 68 119 "t"))⟩, none⟩, none)) ∧
    (∀ start stop step : Int, 1 ≤ step → start < stop →
      maxInRange start (some stop) step
        = .ok ((stop - 1) - ((stop - 1) - start) % step) ∧
      ((stop - 1) - ((stop - 1) - start) % step) ∈ rangeList start stop step ∧
      ∀ x ∈ rangeList start stop step,
        x ≤ (stop - 1) - ((stop - 1) - start) % step) := by
  refine ⟨rfl, ?_⟩
  intro start stop step hstep hlt
  exact ⟨maxInRange_some start stop step hstep (by omega),
    (rangeList_max start stop step hstep hlt).1,
    (rangeList_max start stop step hstep hlt).2⟩

/-- C4 witness: the general part at `(68, 121, 3)`: the computed maximum
is 119 and 119 is an element of the generated range. -/
theorem c4_range_boundary_witness :
    maxInRange 68 (some 121) 3 = .ok 119 ∧
    (119 : Int) ∈ rangeList 68 121 3 := by
  have h := c4_range_boundary.2 68 121 3 (by decide) (by decide)
  have he : ((121 - 1) - ((121 - 1) - 68) % 3 : Int) = 119 := by decide
  exact ⟨he ▸ h.1, he ▸ h.2.1⟩

/-- The state left by `ListGenerator(100).generate_sequence('json', 0, 50)`:
a stored range record of 50 elements. -/
def c6HitFS : FS := (generate_sequence .glist 100 FS.empty "t0" "json" 0 (some 50) 1).1

/-- A state whose markup-format file exists and is non-empty while the
record-notation file is absent. -/
def c6XmlFS : FS := ⟨none, some ⟨"t", some (.xv (.mk "data" [] none []))⟩⟩

/-- C6 counterexample: with maximum length 10, `generateSequence(fmt, 0, 50)`
does NOT always fail — if the target file already holds a matching
50-element record (written earlier by a larger-bound generator), the
call succeeds by reuse, bypassing the length guard entirely; and when it
does fail, the opposite-format file has already been deleted, so an
existing file IS touched. -/
theorem c6_counterexample :
    (generate_sequence .glist 10 c6HitFS "t1" "json" 0 (some 50) 1).2 = none ∧
    (generate_sequence .glist 10 c6XmlFS "t1" "json" 0 (some 50) 1).2
      = some (.invalidSeqLength 10) ∧
    (generate_sequence .glist 10 c6XmlFS "t1" "json" 0 (some 50) 1).1.xmlF = none ∧
    c6XmlFS.xmlF ≠ none := by
  refine ⟨rfl, rfl, rfl, ?_⟩
  intro h
  exact Option.noConfusion h

/-- C6 (amended): when the stored record is NOT reusable (`tryReuse`
misses) and the requested count `rangeCount` reaches the configured
bound, `generate_sequence` fails with `InvalidSequenceLength` carrying
the limit, and the target file's prior content is untouched (the
truncate-and-write happens only after a successful build); the
opposite-format file, however, has already been deleted, and an absent
target file has been created empty. -/
theorem c6_length_guard_amended (g : GKind) (maxLen : Int) (fs0 : FS)
    (now fmt : String) (start0 : Int) (stop0 : Option Int) (step maxEl : Int)
    (hfmt : fmtOk fmt = true)
    (hmax : maxInRange start0 stop0 step = .ok maxEl)
    (hreuse : tryReuse g fmt "range"
        ((((removeUnsupported fs0 fmt).target fmt).getD ⟨now, none⟩).fdata)
        (normStart start0 stop0) maxEl step = .ok none)
    (hstep : 1 ≤ step)
    (hss : normStart start0 stop0 ≤ normStop start0 stop0)
    (hcount : maxLen ≤ rangeCount (normStart start0 stop0)
        (normStop start0 stop0) step) :
    generate_sequence g maxLen fs0 now fmt start0 stop0 step =
      ((removeUnsupported fs0 fmt).setTarget fmt
        (((removeUnsupported fs0 fmt).target fmt).getD ⟨now, none⟩),
       some (.invalidSeqLength maxLen)) ∧
    ((generate_sequence g maxLen fs0 now fmt start0 stop0 step).1).target fmt
      = some (((removeUnsupported fs0 fmt).target fmt).getD ⟨now, none⟩) := by
  have hfull := generate_sequence_miss_error g maxLen fs0 now fmt start0 stop0
    step maxEl (.invalidSeqLength maxLen) hfmt hmax hreuse
    (createSeq_too_long g maxLen _ _ step hstep hss hcount)
  refine ⟨hfull, ?_⟩
  rw [hfull, target_setTarget]

/-- C6 witness: the amended theorem at maximum length 10 and the call
`(json, 0, 50)` on the empty state: the call fails with
`InvalidSequenceLength 10` and the (created-empty) target stays empty. -/
theorem c6_length_guard_amended_witness :
    generate_sequence .glist 10 FS.empty "t" "json" 0 (some 50) 1 =
      (⟨some ⟨"t", none⟩, none⟩, some (.invalidSeqLength 10)) :=
  (c6_length_guard_amended .glist 10 FS.empty "t" "json" 0 (some 50) 1 49
    rfl rfl rfl (by decide) (by decide) (by decide)).1

/-- C10 (confirmed, implicit claim): for growing seeds
(`1 ≤ first ≤ second`) and `3 ≤ length < maxLen`, a list/tuple
`generate_fibonacci` call on an empty target succeeds and stores the
record with metadata `max` equal to the `length`-th term; decoding that
record back gives exactly its JSON shape, and the equivalence check a
second identical call performs — which compares the stored `max`
against the `(length−1)`-th term — returns `false`, because the stored
`max` strictly exceeds the compared term. Hence the Fibonacci cache
never hits and the sequence is recomputed on every call. -/
theorem c10_fib_cache_miss (g : GKind) (maxLen : Int) (fs0 : FS)
    (t1 fmt : String) (first second length : Int)
    (hg : g = .glist ∨ g = .gtuple) (hfmt : fmt = "json" ∨ fmt = "xml")
    (ht1 : t1 ≠ "") (h1 : 1 ≤ first) (h2 : first ≤ second)
    (h3 : 3 ≤ length) (h4 : length < maxLen)
    (hempty : (removeUnsupported fs0 fmt).target fmt = none) :
    (generate_fibonacci g maxLen fs0 t1 fmt first second length).2 = none ∧
    ((generate_fibonacci g maxLen fs0 t1 fmt first second length).1).target fmt
      = some ⟨t1, some (encodeFile fmt
          (.jArr ((fibSeqList first second length).map JVal.jInt))
          (seqTypeName g) "fibonacci" t1 (genName g) first
          (pyFib first second length) t1)⟩ ∧
    decodeFile fmt (encodeFile fmt
        (.jArr ((fibSeqList first second length).map JVal.jInt))
        (seqTypeName g) "fibonacci" t1 (genName g) first
        (pyFib first second length) t1)
      = .ok (some (jsonEncodeV
          (.jArr ((fibSeqList first second length).map JVal.jInt))
          (seqTypeName g) "fibonacci" t1 (genName g) first
          (pyFib first second length) t1)) ∧
    checkEqualJ g "fibonacci"
        (some (jsonEncodeV
          (.jArr ((fibSeqList first second length).map JVal.jInt))
          (seqTypeName g) "fibonacci" t1 (genName g) first
          (pyFib first second length) t1))
        first (pyFib first second (length - 1)) 0 = .ok false ∧
    pyFib first second (length - 1) < pyFib first second length := by
  have hfmtOk : fmtOk fmt = true := by rcases hfmt with rfl | rfl <;> rfl
  have hreuse : tryReuse g fmt "fibonacci"
      ((((removeUnsupported fs0 fmt).target fmt).getD ⟨t1, none⟩).fdata)
      first (pyFib first second (length - 1)) 0 = .ok none := by
    rw [hempty]
    rfl
  have hmx := pyMaxJ_fibSeq first second length h1 h2 h3
  have hfull := generate_fibonacci_fresh g maxLen fs0 t1 fmt first second
    length (pyFib first second length) hg h4 hfmtOk hreuse hmx
  have hlt := pyFib_lt first second length h1 h2 h3
  have hfst : first ≤ pyFib first second length :=
    fibIter_mono first second h1 h2 0 _ (Nat.zero_le _)
  refine ⟨?_, ?_, ?_, ?_, hlt⟩
  · rw [hfull]
  · rw [hfull, target_setTarget, hempty]
    rfl
  · apply decodeFile_encodeFile_arr fmt hfmt
    · exact List.cons_ne_nil _ _
    · rcases hg with rfl | rfl <;> decide
    · rcases hg with rfl | rfl <;> decide
    · decide
    · exact ht1
    · rcases hg with rfl | rfl <;> decide
    · exact ht1
    · omega
  · rw [checkEqualJ_encode_fib]
    have hne : (pyFib first second length == pyFib first second (length - 1))
        = false := by
      rw [beq_eq_false_iff_ne]
      omega
    simp [hne]

/-- C10 witness: the theorem at `(list, json, 2, 3, 5)` on the empty
state: the call succeeds and the second call's equivalence check on the
stored record (`max = 13`, compared against `pyFib 2 3 4 = 8`) is
`false`. -/
theorem c10_fib_cache_miss_witness :
    (generate_fibonacci .glist 100 FS.empty "q" "json" 2 3 5).2 = none ∧
    checkEqualJ .glist "fibonacci"
        (some (jsonEncodeV (.jArr ([2, 3, 5, 8, 13].map JVal.jInt))
          "list" "fibonacci" "q" "ListGenerator" 2 13 "q"))
        2 (pyFib 2 3 4) 0 = .ok false := by
  have h := c10_fib_cache_miss .glist 100 FS.empty "q" "json" 2 3 5
    (Or.inl rfl) (Or.inl rfl) (by decide) (by decide) (by decide) (by decide)
    (by decide) rfl
  exact ⟨h.1, h.2.2.2.1⟩
